import Mathlib

/-!
Verification development for the Weave interpreter.

This file shallowly embeds the parts of the Weave source that the
specification's claims are about, and proves (or refutes) each claim
against the embedding:

* `weave/vm/types/nan_boxed_value.rs` — bit-level NaN-boxed values
  (`NanBoxedValue`), faithful at the level of 64-bit patterns;
* `weave/vm/arena.rs` — the generational arena (`ArenaM`), with the
  `u32` generation counter modelled as `Nat` reduced mod `2^32`;
* `weave/compiler/scanner.rs` — the scanner (`scanToken`);
* `weave/compiler/internal/scope.rs` — compile-time upvalue recording
  (`addUpvalue`);
* `weave/vm/vm.rs` — the VM dispatch loop (`step`, `runLoop`), with
  values as a tagged union (`Value`), as licensed by the data model:
  heap pointers are modelled by allocation identifiers, machine floats
  by their 64-bit patterns.

IEEE-754 comparison and negation are defined exactly on bit patterns;
the four arithmetic operations (whose result values no claim depends
on) are kept abstract in a `Host` structure, together with native
function bodies and float formatting, which the spec treats as
external collaborators.
-/

namespace Weave

/-! ## IEEE 754 binary64 helpers on 64-bit patterns

`f64IsNan`, `f64IsZero` decode the exponent/mantissa fields.
`f64Eq`/`f64Lt`/`f64Gt` are IEEE 754 equality and ordering on bit
patterns (NaN compares false with everything; -0 equals +0); these
are the meaning of Rust's `==`, `<`, `>` on `f64`.  `f64Neg` is IEEE
negation (sign-bit flip). -/

def U32 : Nat := 4294967296

def U64 : Nat := 18446744073709551616

def f64IsNan (b : Nat) : Bool :=
  (b / 2 ^ 52) % 2 ^ 11 == 2047 && b % 2 ^ 52 != 0

def f64IsZero (b : Nat) : Bool :=
  b % 2 ^ 63 == 0

def f64Eq (a b : Nat) : Bool :=
  !f64IsNan a && !f64IsNan b && (a == b || (f64IsZero a && f64IsZero b))

def f64Lt (a b : Nat) : Bool :=
  if f64IsNan a || f64IsNan b then false
  else if f64IsZero a && f64IsZero b then false
  else
    let sa := a / 2 ^ 63
    let sb := b / 2 ^ 63
    let ma := a % 2 ^ 63
    let mb := b % 2 ^ 63
    if sa == 1 && sb == 0 then true
    else if sa == 0 && sb == 1 then false
    else if sa == 0 then ma < mb
    else mb < ma

def f64Gt (a b : Nat) : Bool := f64Lt b a

def f64Neg (b : Nat) : Nat :=
  if b < 2 ^ 63 then b + 2 ^ 63 else b - 2 ^ 63

/-! ## NaN-boxed values, bit level (`nan_boxed_value.rs`)

A `NanBoxedValue` is a 64-bit pattern.  Constants and predicates are
transcribed from the source; `number x` boxes the `f64` whose bit
pattern is `x` (Rust `value.to_bits()` is the identity on patterns). -/

def QUIET_NAN_MASK : Nat := 0x7FF8000000000000

def NULL_BITS : Nat := QUIET_NAN_MASK ||| 0x0004

def TRUE_BITS : Nat := QUIET_NAN_MASK ||| 0x0003

def FALSE_BITS : Nat := QUIET_NAN_MASK ||| 0x0002

structure NanBoxedValue where
  bits : Nat
deriving DecidableEq

def NanBoxedValue.number (x : Nat) : NanBoxedValue := ⟨x⟩

def NanBoxedValue.boolean (v : Bool) : NanBoxedValue :=
  ⟨if v then TRUE_BITS else FALSE_BITS⟩

def NanBoxedValue.null : NanBoxedValue := ⟨NULL_BITS⟩

def NanBoxedValue.is_null (v : NanBoxedValue) : Bool :=
  v.bits == NULL_BITS

def NanBoxedValue.is_boolean (v : NanBoxedValue) : Bool :=
  v.bits == TRUE_BITS || v.bits == FALSE_BITS

def NanBoxedValue.is_pointer (v : NanBoxedValue) : Bool :=
  (v.bits &&& QUIET_NAN_MASK) == QUIET_NAN_MASK && !v.is_null && !v.is_boolean

def NanBoxedValue.is_number (v : NanBoxedValue) : Bool :=
  if (v.bits &&& QUIET_NAN_MASK) != QUIET_NAN_MASK then
    true
  else
    v.bits == QUIET_NAN_MASK ||
      (!v.is_null && !v.is_boolean && !v.is_pointer)

/-- `fast_equal` from `nan_boxed_value.rs`: numeric operands compare by
IEEE 754 equality on their patterns (Rust `a == b` on `f64`); anything
else compares by exact bit equality. -/
def NanBoxedValue.fast_equal (a b : NanBoxedValue) : NanBoxedValue :=
  if a.is_number && b.is_number then
    NanBoxedValue.boolean (f64Eq a.bits b.bits)
  else if a.bits == b.bits then
    NanBoxedValue.boolean true
  else
    NanBoxedValue.boolean false

/-- The bit pattern of Rust's `f64::NAN` (the canonical quiet NaN). -/
def F64_NAN_BITS : Nat := 0x7FF8000000000000

/-- C7: value equality satisfies `fast_equal(number(NaN), number(NaN)) =
false`, `fast_equal(null, null) = true`, `fast_equal(true, true) = true`,
and on any two numeric values `fast_equal` agrees with IEEE 754 equality
of the boxed doubles (`f64Eq` on their bit patterns). -/
theorem fast_equal_spec :
    (NanBoxedValue.fast_equal (.number F64_NAN_BITS) (.number F64_NAN_BITS)
        = .boolean false)
    ∧ (NanBoxedValue.fast_equal .null .null = .boolean true)
    ∧ (NanBoxedValue.fast_equal (.boolean true) (.boolean true) = .boolean true)
    ∧ ∀ a b : NanBoxedValue, a.is_number = true → b.is_number = true →
        a.fast_equal b = .boolean (f64Eq a.bits b.bits) := by
  refine ⟨by decide, by decide, by decide, ?_⟩
  intro a b ha hb
  simp [NanBoxedValue.fast_equal, ha, hb]

/-- Witness for `fast_equal_spec`: the numeric clause applied to the
boxed double 1.0 (bit pattern `0x3FF0000000000000`). -/
theorem fast_equal_spec_witness :
    (NanBoxedValue.number 0x3FF0000000000000).is_number = true
    ∧ NanBoxedValue.fast_equal (.number 0x3FF0000000000000)
        (.number 0x3FF0000000000000)
        = .boolean (f64Eq 0x3FF0000000000000 0x3FF0000000000000) :=
  ⟨by decide, fast_equal_spec.2.2.2 (.number 0x3FF0000000000000)
    (.number 0x3FF0000000000000) (by decide) (by decide)⟩

/-! ## Scanner (`compiler/scanner.rs`)

The scanner is modelled on the unconsumed suffix of the source (a
`List Char`) instead of an index into it; lexemes are captured
directly.  `isAlphaM` is Rust's `char::is_alphabetic` and
`isIdentifierPart` is `is_alphanumeric() || is_digit(10) || c == '_'`,
restricted to the ASCII fragment (`Char.isAlpha`/`Char.isAlphanum`),
which covers every input the claims are about. -/

inductive TokenTypeM where
  | LeftParen | RightParen | LeftBrace | RightBrace | LeftBracket | RightBracket
  | Comma | Minus | Plus | Semicolon | Slash | Star | Caret
  | Bang | NEqual | Equal | EqEqual | Greater | GEqual | Less | LEqual
  | AndAnd | OrOr | Pipe | Map | Reduce
  | Identifier | StringTok | Number | Container
  | If | Else | While | True | False | FN | Return | Puts
  | ERROR | EOF
deriving DecidableEq

structure TokenM where
  ttype : TokenTypeM
  lexeme : String
  line : Nat
deriving DecidableEq

def isAlphaM (c : Char) : Bool := c.isAlpha

def isDigitM (c : Char) : Bool := c.isDigit

def isIdentifierPart (c : Char) : Bool := c.isAlphanum || c.isDigit || c == '_'

/-- `Scanner::skip_whitespace`.  The flag is true while inside a `#`
line comment (the source's inner `while` loop); the comment loop stops
at the newline, which the outer loop then consumes, incrementing the
line counter. -/
def skipWSAux : Bool → List Char → Nat → List Char × Nat
  | _, [], line => ([], line)
  | true, c :: rest, line =>
    if c = '\n' then skipWSAux false rest (line + 1) else skipWSAux true rest line
  | false, c :: rest, line =>
    if c = ' ' ∨ c = '\t' ∨ c = '\r' then skipWSAux false rest line
    else if c = '\n' then skipWSAux false rest (line + 1)
    else if c = '#' then skipWSAux true rest line
    else (c :: rest, line)

def skipWS (code : List Char) (line : Nat) : List Char × Nat :=
  skipWSAux false code line

/-- `Scanner::identifier_type`: keyword lookup on the lexeme. -/
def identifierType (lex : String) : TokenTypeM :=
  if lex = "if" then .If
  else if lex = "else" then .Else
  else if lex = "while" then .While
  else if lex = "true" then .True
  else if lex = "false" then .False
  else if lex = "fn" then .FN
  else if lex = "return" then .Return
  else if lex = "puts" then .Puts
  else .Identifier

/-- `Scanner::scan_number`, after the first digit `c` was consumed. -/
def scanNumberTail (c : Char) (rest : List Char) (line : Nat) :
    TokenM × List Char × Nat :=
  let ds := rest.takeWhile isDigitM
  let rem := rest.drop ds.length
  match rem with
  | '.' :: r2 =>
    if (r2.head?.map isDigitM).getD false then
      let more := r2.takeWhile isDigitM
      (⟨.Number, String.mk (c :: ds ++ '.' :: more), line⟩, r2.drop more.length, line)
    else
      (⟨.Number, String.mk (c :: ds), line⟩, rem, line)
  | _ => (⟨.Number, String.mk (c :: ds), line⟩, rem, line)

/-- `Scanner::scan_string`, after the opening quote was consumed. -/
def scanStringTail (rest : List Char) (line : Nat) : TokenM × List Char × Nat :=
  let content := rest.takeWhile (fun d => d ≠ '"')
  let line' := line + content.countP (fun d => d = '\n')
  if content.length = rest.length then
    (⟨.ERROR, "Unterminated string", line'⟩, [], line')
  else
    (⟨.StringTok, String.mk content, line'⟩, rest.drop (content.length + 1), line')

/-- `Scanner::scan_token`: returns the token, the unconsumed suffix,
and the updated line counter. -/
def scanToken (code : List Char) (line : Nat) : TokenM × List Char × Nat :=
  match skipWS code line with
  | ([], line1) => (⟨.EOF, "", line1⟩, [], line1)
  | (c :: rest, line1) =>
    if isAlphaM c then
      let parts := rest.takeWhile isIdentifierPart
      let lex := String.mk (c :: parts)
      (⟨identifierType lex, lex, line1⟩, rest.drop parts.length, line1)
    else if isDigitM c then
      scanNumberTail c rest line1
    else
      match c with
      | '(' => (⟨.LeftParen, "", line1⟩, rest, line1)
      | ')' => (⟨.RightParen, "", line1⟩, rest, line1)
      | '{' => (⟨.LeftBrace, "", line1⟩, rest, line1)
      | '}' => (⟨.RightBrace, "", line1⟩, rest, line1)
      | '[' => (⟨.LeftBracket, "", line1⟩, rest, line1)
      | ']' => (⟨.RightBracket, "", line1⟩, rest, line1)
      | ',' => (⟨.Comma, "", line1⟩, rest, line1)
      | '-' => (⟨.Minus, "", line1⟩, rest, line1)
      | '+' => (⟨.Plus, "", line1⟩, rest, line1)
      | ';' => (⟨.Semicolon, "", line1⟩, rest, line1)
      | '/' => (⟨.Slash, "", line1⟩, rest, line1)
      | '"' => scanStringTail rest line1
      | '*' =>
        match rest with
        | '>' :: r => (⟨.Map, "", line1⟩, r, line1)
        | _ => (⟨.Star, "", line1⟩, rest, line1)
      | '!' =>
        match rest with
        | '=' :: r => (⟨.NEqual, "", line1⟩, r, line1)
        | _ => (⟨.Bang, "", line1⟩, rest, line1)
      | '=' =>
        match rest with
        | '=' :: r => (⟨.EqEqual, "", line1⟩, r, line1)
        | _ => (⟨.Equal, "", line1⟩, rest, line1)
      | '<' =>
        match rest with
        | '=' :: r => (⟨.LEqual, "", line1⟩, r, line1)
        | _ => (⟨.Less, "", line1⟩, rest, line1)
      | '>' =>
        match rest with
        | '=' :: r => (⟨.GEqual, "", line1⟩, r, line1)
        | _ => (⟨.Greater, "", line1⟩, rest, line1)
      | '&' =>
        match rest with
        | '&' :: r => (⟨.AndAnd, "", line1⟩, r, line1)
        | '>' :: r => (⟨.Reduce, "", line1⟩, r, line1)
        | _ => (⟨.ERROR, "expected &&", line1⟩, rest, line1)
      | '|' =>
        match rest with
        | '|' :: r => (⟨.OrOr, "", line1⟩, r, line1)
        | '>' :: r => (⟨.Pipe, "", line1⟩, r, line1)
        | _ => (⟨.ERROR, "expected || or |>", line1⟩, rest, line1)
      | _ => (⟨.ERROR, "Unexpected character", line1⟩, rest, line1)

theorem identifierType_ne_error (lex : String) : identifierType lex ≠ .ERROR := by
  unfold identifierType
  repeat' split
  all_goals simp

theorem drop_len_takeWhile (p : Char → Bool) :
    ∀ l : List Char, l.drop (l.takeWhile p).length = l.dropWhile p := by
  intro l
  induction l with
  | nil => rfl
  | cons c rest ih =>
    by_cases h : p c
    · simp [List.takeWhile_cons, List.dropWhile_cons, h, ih]
    · simp [List.takeWhile_cons, List.dropWhile_cons, h]

theorem head_dropWhile_false (p : Char → Bool) :
    ∀ (l : List Char) (d : Char), (l.dropWhile p).head? = some d → p d = false := by
  intro l
  induction l with
  | nil => intro d h; simp [List.dropWhile] at h
  | cons c rest ih =>
    intro d h
    by_cases hp : p c
    · exact ih d (by simpa [List.dropWhile_cons, hp] using h)
    · simp [List.dropWhile_cons, hp] at h
      subst h
      simpa using hp

/-- C6 (counterexample): on the source `"_x"` the next non-whitespace
character is an underscore, yet the scanner emits an ERROR token, not
an identifier — `Scanner::is_alpha` is `char::is_alphabetic`, which
rejects `'_'`, and no other match arm accepts it. -/
theorem scanner_underscore_counterexample :
    (scanToken ['_', 'x'] 1).1.ttype = .ERROR
    ∧ (scanToken ['_', 'x'] 1).1.ttype ≠ .Identifier
    ∧ (scanToken ['_', 'x'] 1).1.lexeme = "Unexpected character" := by
  refine ⟨by decide, by decide, by decide⟩

/-- C6 (amended): at a position whose next non-whitespace character is
alphabetic, the scanner produces a single identifier-or-keyword token
(never ERROR) whose lexeme is the maximal run of `[alnum|_]`
continuation characters; when the next character is an underscore, the
scanner instead produces an ERROR token ("Unexpected character"). -/
theorem scanner_identifier (code : List Char) (line : Nat) (c : Char)
    (rest : List Char) (line1 : Nat)
    (hskip : skipWS code line = (c :: rest, line1)) :
    (isAlphaM c = true →
      (scanToken code line).1.ttype ≠ .ERROR
      ∧ (scanToken code line).1.lexeme
          = String.mk (c :: rest.takeWhile isIdentifierPart)
      ∧ (scanToken code line).2.1 = rest.dropWhile isIdentifierPart
      ∧ ∀ d, ((scanToken code line).2.1).head? = some d →
          isIdentifierPart d = false)
    ∧ (c = '_' →
      (scanToken code line).1.ttype = .ERROR
      ∧ (scanToken code line).1.lexeme = "Unexpected character") := by
  constructor
  · intro ha
    simp only [scanToken, hskip, ha, if_pos]
    refine ⟨identifierType_ne_error _, by trivial, ?_, ?_⟩
    · exact drop_len_takeWhile isIdentifierPart rest
    · intro d hd
      rw [drop_len_takeWhile isIdentifierPart rest] at hd
      exact head_dropWhile_false isIdentifierPart rest d hd
  · intro hc
    subst hc
    simp only [scanToken, hskip]
    constructor <;> rfl

/-- Witness for `scanner_identifier`, at the source `"ab+"`. -/
theorem scanner_identifier_witness :
    skipWS ['a', 'b', '+'] 1 = ('a' :: ['b', '+'], 1)
    ∧ (scanToken ['a', 'b', '+'] 1).1.ttype ≠ .ERROR
    ∧ (scanToken ['a', 'b', '+'] 1).1.lexeme
        = String.mk ('a' :: ['b', '+'].takeWhile isIdentifierPart) :=
  ⟨rfl, ((scanner_identifier ['a', 'b', '+'] 1 'a' ['b', '+'] 1 rfl).1
      (by decide)).1,
    ((scanner_identifier ['a', 'b', '+'] 1 'a' ['b', '+'] 1 rfl).1
      (by decide)).2.1⟩

/-! ## Compile-time upvalue recording (`compiler/internal/scope.rs`)

`CUpvalue` is the compiler-side `Upvalue` bridge struct from
`weave_fn.rs` (`idx`, `is_local`, `original_idx`, all `u8`); its
`PartialEq` compares only `original_idx` and `is_local`.
`addUpvalue` is `Scope::add_upvalue` acting on the per-function
upvalue list: the bound check against `MAX_UPVALS` present in the
source only as a commented-out TODO is **absent**, faithfully. -/

structure CUpvalue where
  idx : Nat
  is_local : Bool
  original_idx : Nat
deriving DecidableEq

/-- `impl PartialEq for Upvalue`: compares `original_idx` and `is_local`. -/
def cupvEq (a b : CUpvalue) : Bool :=
  a.original_idx == b.original_idx && a.is_local == b.is_local

/-- The `for (i, u) in upvals.iter().enumerate()` search in
`add_upvalue`: index of the first entry equal to `u`. -/
def findEqIdx (u : CUpvalue) : List CUpvalue → Option Nat
  | [] => none
  | x :: t => if cupvEq x u then some 0 else (findEqIdx u t).map (· + 1)

/-- `Scope::add_upvalue`: deduplicate against the recorded list, else
append; the returned descriptor carries the array index as a `u8`
(hence `% 256`). -/
def addUpvalue (upvals : List CUpvalue) (u : CUpvalue) : List CUpvalue × CUpvalue :=
  match findEqIdx u upvals with
  | some i => (upvals, ⟨i % 256, u.is_local, u.original_idx⟩)
  | none => (upvals ++ [⟨u.idx, u.is_local, u.original_idx⟩],
             ⟨upvals.length % 256, u.is_local, u.original_idx⟩)

/-- `Upvalue::local(i as u8)` as built by `recursive_resolve_upvalue`
for a parent local in slot `i`. -/
def localUpvalue (i : Nat) : CUpvalue := ⟨i % 256, true, i % 256⟩

/-- Recording captures of `n` distinct parent locals (slots `0..n`),
one `add_upvalue` call each, starting from the empty list. -/
def addManyLocals : Nat → List CUpvalue
  | 0 => []
  | n + 1 => (addUpvalue (addManyLocals n) (localUpvalue n)).1

/-- `compiler.rs` line 18; referenced only by the commented-out check. -/
def MAX_UPVALS : Nat := 255

theorem findEqIdx_eq_none (u : CUpvalue) :
    ∀ l : List CUpvalue, (∀ x ∈ l, cupvEq x u = false) → findEqIdx u l = none := by
  intro l
  induction l with
  | nil => intro _; rfl
  | cons x t ih =>
    intro h
    simp [findEqIdx, h x (List.mem_cons_self x t),
      ih (fun y hy => h y (List.mem_cons_of_mem x hy))]

theorem mem_addManyLocals :
    ∀ n x, x ∈ addManyLocals n → ∃ m, m < n ∧ x = localUpvalue m := by
  intro n
  induction n with
  | zero => intro x hx; simp [addManyLocals] at hx
  | succ n ih =>
    intro x hx
    simp only [addManyLocals, addUpvalue] at hx
    cases hfind : findEqIdx (localUpvalue n) (addManyLocals n) with
    | some i =>
      rw [hfind] at hx
      obtain ⟨m, hm, he⟩ := ih x hx
      exact ⟨m, Nat.lt_succ_of_lt hm, he⟩
    | none =>
      rw [hfind] at hx
      simp only [List.mem_append, List.mem_singleton] at hx
      rcases hx with hx | hx
      · obtain ⟨m, hm, he⟩ := ih x hx
        exact ⟨m, Nat.lt_succ_of_lt hm, he⟩
      · exact ⟨n, Nat.lt_succ_self n, by simp [hx, localUpvalue]⟩

theorem addManyLocals_length : ∀ n, n ≤ 256 → (addManyLocals n).length = n := by
  intro n
  induction n with
  | zero => intro _; rfl
  | succ n ih =>
    intro hn
    have hnone : findEqIdx (localUpvalue n) (addManyLocals n) = none := by
      apply findEqIdx_eq_none
      intro x hx
      obtain ⟨m, hm, he⟩ := mem_addManyLocals n x hx
      subst he
      simp only [cupvEq, localUpvalue]
      have hm' : m % 256 = m := Nat.mod_eq_of_lt (by omega)
      have hn' : n % 256 = n := Nat.mod_eq_of_lt (by omega)
      simp [hm', hn']
      omega
    simp only [addManyLocals, addUpvalue, hnone]
    simp [ih (by omega)]

/-- C5: capturing 256 distinct upvalues in one function raises **no**
compile error — `add_upvalue` records all 256 (the `MAX_UPVALS` check
is commented out), the recorded list exceeds `MAX_UPVALS`, and
`emit_closure`'s `upvals.iter().count() as u8` then truncates the
emitted `upvalue_count` to `256 % 256 = 0`. -/
theorem too_many_upvalues_unchecked :
    (addManyLocals 256).length = 256
    ∧ MAX_UPVALS < (addManyLocals 256).length
    ∧ (addManyLocals 256).length % 256 = 0 := by
  have h := addManyLocals_length 256 (by omega)
  refine ⟨h, ?_, ?_⟩ <;> simp [h, MAX_UPVALS]

/-! ## Generational arena (`vm/arena.rs`)

`ArenaM` transcribes `Arena<T>`: parallel `objects`/`generations`
vectors, a free list (a Rust `Vec`, so `pop` takes the last element,
`push` appends), and a `u32` `next_generation` counter starting at 1
whose `wrapping_add(1)` is `(g + 1) % U32`.  `AOp`/`runOps` run a
sequence of insert/remove operations so that the claim's temporal
statements ("as long as", "every subsequent") can be expressed. -/



structure AHandle where
  index : Nat
  generation : Nat
deriving DecidableEq

structure ArenaM (T : Type) where
  objects : List (Option T)
  generations : List Nat
  freeList : List Nat
  nextGeneration : Nat

variable {T : Type}

def ArenaM.empty : ArenaM T := ⟨[], [], [], 1⟩

def ArenaM.insert (a : ArenaM T) (v : T) : ArenaM T × AHandle :=
  let g := a.nextGeneration
  match a.freeList.getLast? with
  | some i =>
    ({ objects := a.objects.set i (some v),
       generations := a.generations.set i g,
       freeList := a.freeList.dropLast,
       nextGeneration := (g + 1) % U32 }, ⟨i, g⟩)
  | none =>
    ({ objects := a.objects ++ [some v],
       generations := a.generations ++ [g],
       freeList := a.freeList,
       nextGeneration := (g + 1) % U32 }, ⟨a.objects.length, g⟩)

def ArenaM.get (a : ArenaM T) (h : AHandle) : Option T :=
  if a.objects.length ≤ h.index then none
  else if a.generations.getD h.index 0 ≠ h.generation then none
  else a.objects.getD h.index none

def ArenaM.remove (a : ArenaM T) (h : AHandle) : ArenaM T × Option T :=
  if a.objects.length ≤ h.index then (a, none)
  else if a.generations.getD h.index 0 ≠ h.generation then (a, none)
  else
    match a.objects.getD h.index none with
    | none => (a, none)
    | some v =>
      ({ a with
         objects := a.objects.set h.index none,
         generations := a.generations.set h.index ((h.generation + 1) % U32),
         freeList := a.freeList ++ [h.index] }, some v)

inductive AOp (T : Type) where
  | ins (v : T)
  | rem (h : AHandle)
deriving DecidableEq

def applyOp (a : ArenaM T) : AOp T → ArenaM T
  | .ins v => (a.insert v).1
  | .rem h => (a.remove h).1

def runOps (a : ArenaM T) (ops : List (AOp T)) : ArenaM T := ops.foldl applyOp a

def insCount (ops : List (AOp T)) : Nat :=
  ops.countP (fun op => match op with | .ins _ => true | .rem _ => false)

structure ArenaWF (a : ArenaM T) : Prop where
  geLen : a.generations.length = a.objects.length
  freeLt : ∀ i ∈ a.freeList, i < a.objects.length
  freeNone : ∀ i ∈ a.freeList, a.objects.getD i none = none
  freeNodup : a.freeList.Nodup
  nextLt : a.nextGeneration < U32

structure Alive (i g : Nat) (v : T) (a : ArenaM T) : Prop where
  iLt : i < a.objects.length
  genEq : a.generations.getD i 0 = g
  objEq : a.objects.getD i none = some v
  notFree : i ∉ a.freeList

structure Dead (i g : Nat) (a : ArenaM T) (budget : Nat) : Prop where
  iLt : i < a.objects.length
  notAliveAtG : a.generations.getD i 0 = g → a.objects.getD i none = none
  futureSafe : ∀ j, j < budget → (a.nextGeneration + j) % U32 ≠ g

theorem getD_set_ne {α : Type} (l : List α) (i j : Nat) (x d : α) (h : i ≠ j) :
    (l.set i x).getD j d = l.getD j d := by
  show ((l.set i x).get? j).getD d = (l.get? j).getD d
  rw [List.get?_set_ne x l h]

theorem getD_set_self {α : Type} (l : List α) (i : Nat) (x d : α) (h : i < l.length) :
    (l.set i x).getD i d = x := by
  show ((l.set i x).get? i).getD d = x
  rw [List.get?_set_eq_of_lt x h]
  rfl

theorem getD_append_left {α : Type} (l l' : List α) (i : Nat) (d : α) (h : i < l.length) :
    (l ++ l').getD i d = l.getD i d := by
  show ((l ++ l').get? i).getD d = (l.get? i).getD d
  rw [List.get?_append h]

/- insert preserves well-formedness -/
theorem insert_wf (a : ArenaM T) (v : T) (hwf : ArenaWF a) : ArenaWF (a.insert v).1 := by
  unfold ArenaM.insert
  cases hfl : a.freeList.getLast? with
  | some j =>
    obtain ⟨ys, hys⟩ := List.getLast?_eq_some_iff.mp hfl
    have hdrop : a.freeList.dropLast = ys := by rw [hys]; exact List.dropLast_concat
    have hjmem : j ∈ a.freeList := by rw [hys]; exact List.mem_append_right _ (List.mem_singleton_self j)
    have hjlt : j < a.objects.length := hwf.freeLt j hjmem
    have hnd := hwf.freeNodup
    rw [hys] at hnd
    have hjys : j ∉ ys := by
      intro hm
      have := (List.nodup_append.mp hnd).2.2
      exact this hm (List.mem_singleton_self j)
    refine ⟨?_, ?_, ?_, ?_, ?_⟩
    · simp [hwf.geLen]
    · intro i hi
      rw [hdrop] at hi
      simp only [List.length_set]
      exact hwf.freeLt i (by rw [hys]; exact List.mem_append_left _ hi)
    · intro i hi
      rw [hdrop] at hi
      have hine : j ≠ i := fun he => hjys (he ▸ hi)
      rw [getD_set_ne _ _ _ _ _ hine]
      exact hwf.freeNone i (by rw [hys]; exact List.mem_append_left _ hi)
    · rw [hdrop]; exact (List.nodup_append.mp hnd).1
    · exact Nat.mod_lt _ (by norm_num [U32])
  | none =>
    refine ⟨?_, ?_, ?_, ?_, ?_⟩
    · simp [hwf.geLen]
    · intro i hi
      simp only [List.length_append, List.length_cons, List.length_nil]
      exact Nat.lt_succ_of_lt (hwf.freeLt i hi)
    · intro i hi
      rw [getD_append_left _ _ _ _ (hwf.freeLt i hi)]
      exact hwf.freeNone i hi
    · exact hwf.freeNodup
    · exact Nat.mod_lt _ (by norm_num [U32])


theorem remove_wf (a : ArenaM T) (h : AHandle) (hwf : ArenaWF a) :
    ArenaWF (a.remove h).1 := by
  unfold ArenaM.remove
  split
  · exact hwf
  · split
    · exact hwf
    · split
      · exact hwf
      · rename_i hlen hgen v hobj
        refine ⟨?_, ?_, ?_, ?_, ?_⟩
        · simp [hwf.geLen]
        · intro i hi
          simp only [List.length_set]
          rcases List.mem_append.mp hi with hi | hi
          · exact hwf.freeLt i hi
          · rw [List.mem_singleton.mp hi]; omega
        · intro i hi
          rcases List.mem_append.mp hi with hi | hi
          · by_cases he : h.index = i
            · subst he
              have := hwf.freeNone _ hi
              rw [this] at hobj
              exact absurd hobj (by simp)
            · rw [getD_set_ne _ _ _ _ _ he]
              exact hwf.freeNone i hi
          · rw [List.mem_singleton.mp hi]
            rw [getD_set_self _ _ _ _ (by omega)]
        · refine List.Nodup.append hwf.freeNodup (List.nodup_singleton _) ?_
          intro i hi hj
          rw [List.mem_singleton.mp hj] at hi
          have := hwf.freeNone _ hi
          rw [this] at hobj
          exact absurd hobj (by simp)
        · exact hwf.nextLt

theorem insert_alive (a : ArenaM T) (w : T) (i g : Nat) (v : T)
    (hwf : ArenaWF a) (hal : Alive i g v a) : Alive i g v (a.insert w).1 := by
  unfold ArenaM.insert
  cases hfl : a.freeList.getLast? with
  | some j =>
    have hjmem : j ∈ a.freeList := by
      obtain ⟨ys, hys⟩ := List.getLast?_eq_some_iff.mp hfl
      rw [hys]; exact List.mem_append_right _ (List.mem_singleton_self j)
    have hji : j ≠ i := fun he => hal.notFree (he ▸ hjmem)
    refine ⟨?_, ?_, ?_, ?_⟩
    · simp only [List.length_set]; exact hal.iLt
    · rw [getD_set_ne _ _ _ _ _ hji]; exact hal.genEq
    · rw [getD_set_ne _ _ _ _ _ hji]; exact hal.objEq
    · intro hm
      exact hal.notFree (List.mem_of_mem_dropLast hm)
  | none =>
    refine ⟨?_, ?_, ?_, ?_⟩
    · simp only [List.length_append, List.length_cons, List.length_nil]
      exact Nat.lt_succ_of_lt hal.iLt
    · rw [getD_append_left _ _ _ _ (hwf.geLen ▸ hal.iLt)]; exact hal.genEq
    · rw [getD_append_left _ _ _ _ hal.iLt]; exact hal.objEq
    · exact hal.notFree

theorem remove_alive (a : ArenaM T) (h : AHandle) (i g : Nat) (v : T)
    (hal : Alive i g v a) (hne : h ≠ ⟨i, g⟩) : Alive i g v (a.remove h).1 := by
  unfold ArenaM.remove
  split
  · exact hal
  · split
    · exact hal
    · split
      · exact hal
      · rename_i hlen hgen w hobj
        have hji : h.index ≠ i := by
          intro he
          apply hne
          have : h.generation = g := by
            rw [← hal.genEq, ← he]
            omega
          cases h
          simp_all
        refine ⟨?_, ?_, ?_, ?_⟩
        · simp only [List.length_set]; exact hal.iLt
        · rw [getD_set_ne _ _ _ _ _ hji]; exact hal.genEq
        · rw [getD_set_ne _ _ _ _ _ hji]; exact hal.objEq
        · intro hm
          rcases List.mem_append.mp hm with hm | hm
          · exact hal.notFree hm
          · exact hji (List.mem_singleton.mp hm).symm

theorem alive_get (a : ArenaM T) (i g : Nat) (v : T) (hal : Alive i g v a) :
    a.get ⟨i, g⟩ = some v := by
  unfold ArenaM.get
  rw [if_neg (Nat.not_le.mpr hal.iLt), if_neg (fun hc => hc hal.genEq)]
  exact hal.objEq

theorem runOps_alive (i g : Nat) (v : T) :
    ∀ (ops : List (AOp T)) (a : ArenaM T), ArenaWF a → Alive i g v a →
      AOp.rem ⟨i, g⟩ ∉ ops →
      ArenaWF (runOps a ops) ∧ Alive i g v (runOps a ops) := by
  intro ops
  induction ops with
  | nil => intro a hwf hal _; exact ⟨hwf, hal⟩
  | cons op rest ih =>
    intro a hwf hal hnm
    have hnm1 : op ≠ AOp.rem ⟨i, g⟩ := fun he => hnm (he ▸ List.mem_cons_self _ _)
    have hnm2 : AOp.rem ⟨i, g⟩ ∉ rest := fun hm => hnm (List.mem_cons_of_mem _ hm)
    show ArenaWF (runOps (applyOp a op) rest) ∧ _
    cases op with
    | ins w =>
      exact ih _ (insert_wf a w hwf) (insert_alive a w i g v hwf hal) hnm2
    | rem h =>
      have hne : h ≠ ⟨i, g⟩ := fun he => hnm1 (by rw [he])
      exact ih _ (remove_wf a h hwf) (remove_alive a h i g v hal hne) hnm2


theorem mod_shift (n k : Nat) : ((n + 1) % U32 + k) % U32 = (n + 1 + k) % U32 := by
  rw [Nat.mod_add_mod]

theorem add_mod_ne_self (g m : Nat) (hg : g < U32) (h0 : 0 < m) (hm : m < U32) :
    (g + m) % U32 ≠ g := by
  intro he
  rcases Nat.lt_or_ge (g + m) U32 with hlt | hge
  · rw [Nat.mod_eq_of_lt hlt] at he; omega
  · have h2 : g + m - U32 < U32 := by omega
    rw [Nat.mod_eq_sub_mod hge, Nat.mod_eq_of_lt h2] at he
    omega

theorem insert_nextGen (a : ArenaM T) (v : T) :
    (a.insert v).1.nextGeneration = (a.nextGeneration + 1) % U32 := by
  unfold ArenaM.insert
  cases a.freeList.getLast? <;> rfl

theorem remove_nextGen (a : ArenaM T) (h : AHandle) :
    (a.remove h).1.nextGeneration = a.nextGeneration := by
  unfold ArenaM.remove
  split
  · rfl
  · split
    · rfl
    · split <;> rfl

theorem runOps_nextGen :
    ∀ (ops : List (AOp T)) (a : ArenaM T), ArenaWF a →
      (runOps a ops).nextGeneration = (a.nextGeneration + insCount ops) % U32 := by
  intro ops
  induction ops with
  | nil =>
    intro a hwf
    simp only [runOps, List.foldl_nil, insCount, List.countP_nil, Nat.add_zero]
    exact (Nat.mod_eq_of_lt hwf.nextLt).symm
  | cons op rest ih =>
    intro a hwf
    simp only [runOps, List.foldl_cons]
    cases op with
    | ins w =>
      have := ih ((a.insert w).1) (insert_wf a w hwf)
      simp only [runOps] at this
      simp only [applyOp]
      rw [this, insert_nextGen, mod_shift]
      have hc : insCount (AOp.ins w :: rest) = insCount rest + 1 := by
        simp [insCount, List.countP_cons]
      rw [hc]
      congr 1
      omega
    | rem h =>
      have := ih ((a.remove h).1) (remove_wf a h hwf)
      simp only [runOps] at this
      simp only [applyOp]
      rw [this, remove_nextGen]
      have hc : insCount (AOp.rem h :: rest) = insCount rest := by
        simp [insCount, List.countP_cons]
      rw [hc]


theorem insert_dead (a : ArenaM T) (w : T) (i g : Nat) (budget : Nat)
    (hwf : ArenaWF a) (hd : Dead i g a (budget + 1)) :
    Dead i g (a.insert w).1 budget := by
  have hfs' : ∀ j, j < budget → ((a.insert w).1.nextGeneration + j) % U32 ≠ g := by
    intro j hj
    rw [insert_nextGen, mod_shift]
    have := hd.futureSafe (j + 1) (by omega)
    rwa [show a.nextGeneration + 1 + j = a.nextGeneration + (j + 1) by omega]
  have hg0 : a.nextGeneration ≠ g := by
    have := hd.futureSafe 0 (by omega)
    rwa [Nat.add_zero, Nat.mod_eq_of_lt hwf.nextLt] at this
  unfold ArenaM.insert
  cases hfl : a.freeList.getLast? with
  | some j =>
    have hjmem : j ∈ a.freeList := by
      obtain ⟨ys, hys⟩ := List.getLast?_eq_some_iff.mp hfl
      rw [hys]; exact List.mem_append_right _ (List.mem_singleton_self j)
    have hjlt : j < a.objects.length := hwf.freeLt j hjmem
    refine ⟨by simpa using hd.iLt, ?_, ?_⟩
    · by_cases hji : j = i
      · subst hji
        intro hgen
        rw [getD_set_self _ _ _ _ (hwf.geLen ▸ hjlt)] at hgen
        exact absurd hgen hg0
      · intro hgen
        rw [getD_set_ne _ _ _ _ _ hji] at hgen
        rw [getD_set_ne _ _ _ _ _ hji]
        exact hd.notAliveAtG hgen
    · intro j' hj'
      have h2 := hfs' j' hj'
      rw [insert_nextGen] at h2
      exact h2
  | none =>
    refine ⟨?_, ?_, ?_⟩
    · have := hd.iLt
      simp only [List.length_append, List.length_cons, List.length_nil]
      omega
    · intro hgen
      rw [getD_append_left _ _ _ _ (hwf.geLen ▸ hd.iLt)] at hgen
      rw [getD_append_left _ _ _ _ hd.iLt]
      exact hd.notAliveAtG hgen
    · intro j' hj'
      have h2 := hfs' j' hj'
      rw [insert_nextGen] at h2
      exact h2

theorem remove_dead (a : ArenaM T) (h : AHandle) (i g : Nat) (budget : Nat)
    (hd : Dead i g a budget) : Dead i g (a.remove h).1 budget := by
  unfold ArenaM.remove
  split
  · exact hd
  · split
    · exact hd
    · split
      · exact hd
      · rename_i hlen hgen w hobj
        refine ⟨by simpa using hd.iLt, ?_, hd.futureSafe⟩
        by_cases hji : h.index = i
        · subst hji
          intro _
          rw [getD_set_self _ _ _ _ (by omega)]
        · intro hg2
          rw [getD_set_ne _ _ _ _ _ hji] at hg2
          rw [getD_set_ne _ _ _ _ _ hji]
          exact hd.notAliveAtG hg2

theorem runOps_dead (i g : Nat) :
    ∀ (ops : List (AOp T)) (a : ArenaM T) (budget : Nat), ArenaWF a →
      Dead i g a budget → insCount ops ≤ budget →
      ArenaWF (runOps a ops) ∧ Dead i g (runOps a ops) (budget - insCount ops) := by
  intro ops
  induction ops with
  | nil =>
    intro a budget hwf hd _
    simpa [runOps, insCount] using ⟨hwf, hd⟩
  | cons op rest ih =>
    intro a budget hwf hd hle
    simp only [runOps, List.foldl_cons]
    cases op with
    | ins w =>
      have hcnt : insCount (AOp.ins w :: rest) = insCount rest + 1 := by
        simp [insCount, List.countP_cons]
      rw [hcnt] at hle
      have hd1 : Dead i g a ((budget - 1) + 1) := by
        have : (budget - 1) + 1 = budget := by omega
        rwa [this]
      have := ih ((a.insert w).1) (budget - 1) (insert_wf a w hwf)
        (insert_dead a w i g (budget - 1) hwf hd1) (by omega)
      simp only [applyOp, runOps] at this ⊢
      have heq : budget - 1 - insCount rest = budget - insCount (AOp.ins w :: rest) := by
        rw [hcnt]; omega
      rwa [heq] at this
    | rem h =>
      have hcnt : insCount (AOp.rem h :: rest) = insCount rest := by
        simp [insCount, List.countP_cons]
      rw [hcnt] at hle
      have := ih ((a.remove h).1) budget (remove_wf a h hwf)
        (remove_dead a h i g budget hd) hle
      simp only [applyOp, runOps] at this ⊢
      rwa [hcnt]

theorem remove_alive_success (a : ArenaM T) (i g : Nat) (v : T)
    (_hwf : ArenaWF a) (hal : Alive i g v a) (budget : Nat)
    (hfs : ∀ j, j < budget → (a.nextGeneration + j) % U32 ≠ g) :
    (a.remove ⟨i, g⟩).2 = some v ∧ Dead i g (a.remove ⟨i, g⟩).1 budget := by
  unfold ArenaM.remove
  rw [if_neg (Nat.not_le.mpr hal.iLt), if_neg (fun hc => hc hal.genEq)]
  simp only [hal.objEq]
  refine ⟨by trivial, ⟨by simpa using hal.iLt, ?_, by simpa using hfs⟩⟩
  intro _
  rw [getD_set_self _ _ _ _ hal.iLt]

theorem dead_get (a : ArenaM T) (i g : Nat) (budget : Nat)
    (hd : Dead i g a budget) : a.get ⟨i, g⟩ = none := by
  unfold ArenaM.get
  rw [if_neg (Nat.not_le.mpr hd.iLt)]
  by_cases hgen : a.generations.getD i 0 = g
  · rw [if_neg (fun hc => hc hgen)]
    exact hd.notAliveAtG hgen
  · rw [if_pos hgen]

theorem dead_remove (a : ArenaM T) (i g : Nat) (budget : Nat)
    (hd : Dead i g a budget) : a.remove ⟨i, g⟩ = (a, none) := by
  unfold ArenaM.remove
  rw [if_neg (Nat.not_le.mpr hd.iLt)]
  by_cases hgen : a.generations.getD i 0 = g
  · rw [if_neg (fun hc => hc hgen)]
    simp only [hd.notAliveAtG hgen]
  · rw [if_pos hgen]

theorem getD_concat_self {α : Type} (l : List α) (x d : α) :
    (l ++ [x]).getD l.length d = x := by
  show ((l ++ [x]).get? l.length).getD d = x
  rw [List.get?_concat_length]
  rfl

theorem insert_spec (a : ArenaM T) (v : T) (hwf : ArenaWF a) :
    Alive (a.insert v).2.index (a.insert v).2.generation v (a.insert v).1
    ∧ (a.insert v).2.generation = a.nextGeneration := by
  unfold ArenaM.insert
  cases hfl : a.freeList.getLast? with
  | some j =>
    obtain ⟨ys, hys⟩ := List.getLast?_eq_some_iff.mp hfl
    have hdrop : a.freeList.dropLast = ys := by rw [hys]; exact List.dropLast_concat
    have hjmem : j ∈ a.freeList := by
      rw [hys]; exact List.mem_append_right _ (List.mem_singleton_self j)
    have hjlt : j < a.objects.length := hwf.freeLt j hjmem
    have hnd := hwf.freeNodup
    rw [hys] at hnd
    have hjys : j ∉ ys := by
      intro hm
      exact (List.nodup_append.mp hnd).2.2 hm (List.mem_singleton_self j)
    refine ⟨⟨?_, ?_, ?_, ?_⟩, rfl⟩
    · simpa using hjlt
    · exact getD_set_self _ _ _ _ (hwf.geLen ▸ hjlt)
    · exact getD_set_self _ _ _ _ hjlt
    · simp only [hdrop]
      exact hjys
  | none =>
    refine ⟨⟨?_, ?_, ?_, ?_⟩, rfl⟩
    · simp
    · rw [show a.objects.length = a.generations.length from hwf.geLen.symm]
      exact getD_concat_self _ _ _
    · exact getD_concat_self _ _ _
    · rw [List.getLast?_eq_none_iff.mp hfl]
      exact List.not_mem_nil _

/-- C8 (amended): a handle stays valid until removed (unconditionally),
and once removed stays invalid provided fewer than `2^32` insertions
follow the handle's creation. -/
theorem arena_handle_lifecycle (A0 : ArenaM T) (v : T)
    (ops : List (AOp T)) (hwf : ArenaWF A0)
    (hins : insCount ops < U32) :
    ((AOp.rem (A0.insert v).2 ∉ ops) →
        (runOps (A0.insert v).1 ops).get (A0.insert v).2 = some v)
    ∧ (∀ pre post, ops = pre ++ AOp.rem (A0.insert v).2 :: post →
        AOp.rem (A0.insert v).2 ∉ pre →
        ((runOps (A0.insert v).1 pre).remove (A0.insert v).2).2 = some v
        ∧ (runOps (A0.insert v).1 ops).get (A0.insert v).2 = none
        ∧ (runOps (A0.insert v).1 ops).remove (A0.insert v).2
            = (runOps (A0.insert v).1 ops, none)) := by
  obtain ⟨hal, hgen⟩ := insert_spec A0 v hwf
  have hwf1 : ArenaWF (A0.insert v).1 := insert_wf A0 v hwf
  set h := (A0.insert v).2 with hh
  set A1 := (A0.insert v).1 with hA1
  constructor
  · intro hnm
    obtain ⟨hwf2, hal2⟩ := runOps_alive h.index h.generation v ops A1 hwf1 hal hnm
    have := alive_get _ _ _ _ hal2
    rwa [show (⟨h.index, h.generation⟩ : AHandle) = h from rfl] at this
  · intro pre post hsplit hnmpre
    obtain ⟨hwfB, halB⟩ := runOps_alive h.index h.generation v pre A1 hwf1 hal hnmpre
    set B := runOps A1 pre with hB
    have hcnt : insCount ops = insCount pre + insCount post := by
      rw [hsplit]
      simp [insCount, List.countP_append, List.countP_cons]
    have hnextB : B.nextGeneration = (A1.nextGeneration + insCount pre) % U32 :=
      runOps_nextGen pre A1 hwf1
    have hnextA1 : A1.nextGeneration = (h.generation + 1) % U32 := by
      rw [hgen, hA1, insert_nextGen]
    have hgenlt : h.generation < U32 := hgen ▸ hwf.nextLt
    have hfs : ∀ j, j < insCount post → (B.nextGeneration + j) % U32 ≠ h.generation := by
      intro j hj
      rw [hnextB, hnextA1, mod_shift, Nat.mod_add_mod]
      rw [show h.generation + 1 + insCount pre + j
            = h.generation + (1 + insCount pre + j) by omega]
      exact add_mod_ne_self h.generation (1 + insCount pre + j) hgenlt (by omega) (by omega)
    obtain ⟨hres, hdead⟩ := remove_alive_success B h.index h.generation v hwfB
      (by exact halB) (insCount post) hfs
    have hwfB' : ArenaWF (B.remove ⟨h.index, h.generation⟩).1 :=
      remove_wf B ⟨h.index, h.generation⟩ hwfB
    have hrun : runOps A1 ops = runOps (B.remove ⟨h.index, h.generation⟩).1 post := by
      rw [hsplit, hB]
      show List.foldl applyOp A1 (pre ++ AOp.rem h :: post) = _
      rw [List.foldl_append, List.foldl_cons]
      rfl
    obtain ⟨hwfF, hdeadF⟩ := runOps_dead h.index h.generation post
      (B.remove ⟨h.index, h.generation⟩).1 (insCount post) hwfB' hdead (by omega)
    refine ⟨by rwa [show (⟨h.index, h.generation⟩ : AHandle) = h from rfl] at hres, ?_, ?_⟩
    · rw [hrun]
      have := dead_get _ _ _ _ hdeadF
      rwa [show (⟨h.index, h.generation⟩ : AHandle) = h from rfl] at this
    · rw [hrun]
      have := dead_remove _ _ _ _ hdeadF
      rwa [show (⟨h.index, h.generation⟩ : AHandle) = h from rfl] at this


/-- The insert/remove cycles on slot 0 used by the wrap-around
counterexample: cycle `m` inserts and immediately removes a value,
advancing the generation counter by one. -/
def cycleOps : Nat → List (AOp Nat)
  | 0 => []
  | m + 1 => cycleOps m ++ [AOp.ins 7, AOp.rem ⟨0, (2 + m) % U32⟩]

/-- The arena state after `m` cycles. -/
def cycleState (m : Nat) : ArenaM Nat :=
  ⟨[none], [(2 + m) % U32], [0], (2 + m) % U32⟩

theorem runOps_cycle : ∀ m, runOps (cycleState 0) (cycleOps m) = cycleState m := by
  intro m
  induction m with
  | zero => rfl
  | succ m ih =>
    show runOps _ (cycleOps m ++ [AOp.ins 7, AOp.rem ⟨0, (2 + m) % U32⟩]) = _
    unfold runOps at ih ⊢
    rw [List.foldl_append, ih]
    show applyOp (applyOp (cycleState m) (AOp.ins 7)) (AOp.rem ⟨0, (2 + m) % U32⟩) = _
    have h1 : applyOp (cycleState m) (AOp.ins 7)
        = ⟨[some 7], [(2 + m) % U32], [], ((2 + m) % U32 + 1) % U32⟩ := rfl
    rw [h1]
    show (ArenaM.remove _ _).1 = _
    unfold ArenaM.remove
    rw [if_neg (by simp)]
    rw [if_neg (by simp [List.getD])]
    show (⟨[none], [((2 + m) % U32 + 1) % U32], [0], ((2 + m) % U32 + 1) % U32⟩ : ArenaM Nat) = _
    unfold cycleState
    rw [Nat.mod_add_mod]
    congr 2


/-- C8 (counterexample): the claim's "every subsequent get(h) ...
returns absent" fails once the 32-bit generation counter wraps.  Insert
value 5 (handle `(0, 1)`), remove it successfully, run `2^32 - 1`
insert/remove cycles on the same slot, then insert 9: the slot's
generation is 1 again, and `get` with the long-removed handle returns
`some 9`, not absent. -/
theorem arena_stale_handle_resurrected :
    ((ArenaM.empty : ArenaM Nat).insert 5).2 = ⟨0, 1⟩
    ∧ (((ArenaM.empty : ArenaM Nat).insert 5).1.remove ⟨0, 1⟩).2 = some 5
    ∧ (runOps (((ArenaM.empty : ArenaM Nat).insert 5).1.remove ⟨0, 1⟩).1
        (cycleOps (U32 - 1) ++ [AOp.ins 9])).get ⟨0, 1⟩ = some 9 := by
  refine ⟨rfl, rfl, ?_⟩
  have hA2 : (((ArenaM.empty : ArenaM Nat).insert 5).1.remove ⟨0, 1⟩).1 = cycleState 0 := rfl
  rw [hA2]
  unfold runOps
  rw [List.foldl_append]
  have hrc := runOps_cycle (U32 - 1)
  unfold runOps at hrc
  rw [hrc]
  have hcs : cycleState (U32 - 1) = ⟨[none], [1], [0], 1⟩ := by
    unfold cycleState
    have : (2 + (U32 - 1)) % U32 = 1 := by decide
    rw [this]
  rw [hcs]
  rfl


theorem emptyArenaWF : ArenaWF (ArenaM.empty : ArenaM Nat) :=
  ⟨rfl, fun i hi => absurd hi (List.not_mem_nil i),
    fun i hi => absurd hi (List.not_mem_nil i), List.nodup_nil, by decide⟩

theorem arena_handle_lifecycle_witness :
    insCount ([AOp.rem ⟨0, 1⟩] : List (AOp Nat)) < U32
    ∧ ((runOps ((ArenaM.empty : ArenaM Nat).insert 5).1 []).remove
        ((ArenaM.empty : ArenaM Nat).insert 5).2).2 = some 5
    ∧ (runOps ((ArenaM.empty : ArenaM Nat).insert 5).1
        [AOp.rem ⟨0, 1⟩]).get ((ArenaM.empty : ArenaM Nat).insert 5).2 = none := by
  have h := (arena_handle_lifecycle (ArenaM.empty : ArenaM Nat) 5
      [AOp.rem ⟨0, 1⟩] emptyArenaWF (by decide)).2 [] [] rfl
      (List.not_mem_nil _)
  exact ⟨by decide, h.1, h.2.1⟩


/-! ## The VM (`vm/vm.rs`)

Values are modelled as the tagged union that the NaN-box encodes
(`Value`); heap pointers (strings, native functions, compile-time
closure templates) carry an allocation identifier standing for the
48-bit address, so that the source's bitwise (pointer) equality is
expressible.  A `FrameM` holds a snapshot of its `FnClosure` (the
source stores a raw pointer to the immutable arena entry, and `IP`
clones the bytecode).  `Host` keeps external collaborators abstract:
the four IEEE 754 arithmetic operations on bit patterns (no claim
depends on their values), `f64` formatting, and native-function
bodies.  `step` transcribes one iteration of `VM::run`'s dispatch
loop; `runLoop`/`runVM` the loop itself (fuel-indexed), and
`handleVMError` the error path of `VM::interpret`.  Rust `Vec` panics
(index out of bounds, subtraction overflow, `unwrap` on `None`) are
the `.crash` outcome. -/

def ArenaM.setObj (a : ArenaM T) (h : AHandle) (v : T) : ArenaM T :=
  match a.get h with
  | some _ => { a with objects := a.objects.set h.index (some v) }
  | none => a


inductive Value where
  | num (bits : Nat)
  | boolean (b : Bool)
  | null
  | str (id : Nat) (content : String)
  | nativeFn (id : Nat)
  | closurePtr (id : Nat) (name : String) (arity : Nat) (upvalueCount : Nat)
      (code : List Nat) (constants : List Value) (lines : List (Nat × Nat))
  | closureHandle (index : Nat) (generation : Nat)

structure WeaveFnM where
  name : String
  arity : Nat
  upvalueCount : Nat
  code : List Nat
  constants : List Value
  lines : List (Nat × Nat)

structure FnClosureM where
  func : WeaveFnM
  upvalues : List AHandle

inductive UpvalueObj where
  | openUpvalue (idx : Nat)
  | closedUpvalue (value : Value)

structure FrameM where
  closure : FnClosureM
  slot : Nat
  ip : Nat

structure VMState where
  stack : List Value
  frames : List FrameM
  globals : List (String × Value)
  lastValue : Value
  closureArena : ArenaM FnClosureM
  upvalueArena : ArenaM UpvalueObj
  nextAllocId : Nat

inductive VMErr where
  | invalidChunk
  | compilationError (msg : String)
  | runtimeError (line : Nat) (msg : String)
deriving DecidableEq

inductive StepResult where
  | ok (s : VMState)
  | err (e : VMErr) (s : VMState)
  | done (v : Value) (s : VMState)
  | crash (msg : String)

structure Host where
  fadd : Nat → Nat → Nat
  fsub : Nat → Nat → Nat
  fmul : Nat → Nat → Nat
  fdiv : Nat → Nat → Nat
  fmtNum : Nat → String
  native : Nat → List Value → Except VMErr Value

inductive OpM where
  | RETURN | CONSTANT | NEGATE | ADD | SUB | MUL | DIV | TRUE | FALSE | NOT
  | GREATER | LESS | EQUAL | PRINT | POP | SetGlobal | GetGlobal
  | SetLocal | GetLocal | Closure | JumpIfFalse | Jump | Loop | Call
  | SetUpvalue | GetUpvalue
  | INVALID (byte : Nat)
deriving DecidableEq

def opAt (byte : Nat) : OpM :=
  match byte with
  | 0 => .RETURN
  | 1 => .CONSTANT
  | 2 => .NEGATE
  | 3 => .ADD
  | 4 => .SUB
  | 5 => .MUL
  | 6 => .DIV
  | 7 => .TRUE
  | 8 => .FALSE
  | 9 => .NOT
  | 10 => .GREATER
  | 11 => .LESS
  | 12 => .EQUAL
  | 13 => .PRINT
  | 14 => .POP
  | 15 => .SetGlobal
  | 16 => .GetGlobal
  | 17 => .SetLocal
  | 18 => .GetLocal
  | 19 => .Closure
  | 20 => .JumpIfFalse
  | 21 => .Jump
  | 22 => .Loop
  | 23 => .Call
  | 24 => .SetUpvalue
  | 25 => .GetUpvalue
  | b => .INVALID b

def readByte (code : List Nat) (ip : Nat) : Nat × Nat :=
  match code.get? ip with
  | some b => (b, ip + 1)
  | none => (0, ip)

def readU16 (code : List Nat) (ip : Nat) : Nat × Nat :=
  let p1 := readByte code ip
  let p2 := readByte code p1.2
  (p1.1 * 256 + p2.1, p2.2)

def popOrNull (stack : List Value) : Value × List Value :=
  (stack.getLast?.getD .null, stack.dropLast)

def lineNumberAt (lines : List (Nat × Nat)) (point : Nat) : Nat :=
  match lines.find? (fun p => decide (point ≤ p.1)) with
  | some p => p.2
  | none => 0

def ipIdxNeg1 (ip : Nat) : Nat := if 1 > ip then 0 else ip - 1

def curLine (f : FrameM) : Nat :=
  lineNumberAt f.closure.func.lines (ipIdxNeg1 f.ip)

def setCur (s : VMState) (f : FrameM) : VMState :=
  { s with frames := s.frames.dropLast ++ [f] }

def pushV (s : VMState) (v : Value) : VMState := { s with stack := s.stack ++ [v] }

@[simp] theorem setCur_stack (s : VMState) (f : FrameM) : (setCur s f).stack = s.stack := rfl

@[simp] theorem setCur_globals (s : VMState) (f : FrameM) : (setCur s f).globals = s.globals := rfl

@[simp] theorem setCur_lastValue (s : VMState) (f : FrameM) : (setCur s f).lastValue = s.lastValue := rfl

@[simp] theorem setCur_closureArena (s : VMState) (f : FrameM) : (setCur s f).closureArena = s.closureArena := rfl

@[simp] theorem setCur_upvalueArena (s : VMState) (f : FrameM) : (setCur s f).upvalueArena = s.upvalueArena := rfl

@[simp] theorem setCur_nextAllocId (s : VMState) (f : FrameM) : (setCur s f).nextAllocId = s.nextAllocId := rfl

@[simp] theorem setCur_frames (s : VMState) (f : FrameM) : (setCur s f).frames = s.frames.dropLast ++ [f] := rfl

def isTruthy : Value → Bool
  | .null => false
  | .boolean b => b
  | .num bits => !f64IsNan bits && !f64IsZero bits
  | _ => true

def bitsEqV : Value → Value → Bool
  | .boolean x, .boolean y => x == y
  | .null, .null => true
  | .str i _, .str j _ => i == j
  | .nativeFn i, .nativeFn j => i == j
  | .closureHandle i g, .closureHandle i' g' => i == i' && g == g'
  | .closurePtr i _ _ _ _ _ _, .closurePtr j _ _ _ _ _ _ => i == j
  | _, _ => false

def fastEqualV : Value → Value → Value
  | .num a, .num b => .boolean (f64Eq a b)
  | a, b => .boolean (bitsEqV a b)

def displayV (H : Host) : Value → String
  | .num b => H.fmtNum b
  | .boolean b => if b then "true" else "false"
  | .null => "null"
  | .str _ s => s
  | .closureHandle i g => "<closure handle " ++ toString i ++ ":" ++ toString g ++ ">"
  | .nativeFn _ => "<NativeFn pointer>"
  | .closurePtr _ _ _ _ _ _ _ => "<Closure pointer>"

def isStrV : Value → Bool
  | .str _ _ => true
  | _ => false

def strContent : Value → String
  | .str _ s => s
  | _ => ""

def lookupGlobal : List (String × Value) → String → Option Value
  | [], _ => none
  | (k, v) :: t, n => if k = n then some v else lookupGlobal t n

def insertGlobal : List (String × Value) → String → Value → List (String × Value)
  | [], k, v => [(k, v)]
  | (k', v') :: t, k, v =>
    if k' = k then (k, v) :: t else (k', v') :: insertGlobal t k v

def closeUpvalues (a : ArenaM UpvalueObj) (stack : List Value) (last : Nat) :
    ArenaM UpvalueObj :=
  { a with objects := a.objects.map fun o =>
      match o with
      | some (.openUpvalue idx) =>
        if last ≤ idx && idx < stack.length then
          some (.closedUpvalue (stack.getD idx .null))
        else some (.openUpvalue idx)
      | o => o }

def returnArm (s : VMState) (slot : Nat) : StepResult :=
  let result := s.stack.getLast?.getD .null
  let stack1 := s.stack.dropLast
  let ua := closeUpvalues s.upvalueArena stack1 slot
  let stack2 := stack1.take slot
  let frames' := s.frames.dropLast
  if frames'.isEmpty then
    .done result { s with stack := stack2, frames := frames', upvalueArena := ua }
  else
    .ok { s with stack := stack2 ++ [result], frames := frames', upvalueArena := ua }

def setLocalStack (slot : Nat) (stack : List Value) : List Value :=
  let v := stack.getLast?.getD .null
  let st1 := stack.dropLast
  let st2 :=
    if st1.length ≤ slot then
      st1 ++ List.replicate (max (slot + 1) (st1.length * 2) - st1.length) Value.null
    else st1
  st2.set slot v

def getLocalStack (slot : Nat) (stack : List Value) : List Value :=
  let st2 :=
    if stack.length ≤ slot then
      stack ++ List.replicate (max (slot + 1) (stack.length * 2) - stack.length) Value.null
    else stack
  st2 ++ [st2.getD slot .null]

def mkClosureHandleValue (h : AHandle) : Value :=
  let packed := Nat.lor (h.generation <<< 32) h.index
  let trunc := packed % (2 ^ 48)
  Value.closureHandle (trunc % U32) (trunc / U32)

def processUpvals (curSlot : Nat) (curUpvals : List AHandle) (code : List Nat) :
    Nat → Nat → ArenaM UpvalueObj → List AHandle →
    Except String (Nat × ArenaM UpvalueObj × List AHandle)
  | 0, ip, ua, acc => .ok (ip, ua, acc)
  | n + 1, ip, ua, acc =>
    match code.get? ip, code.get? (ip + 1) with
    | some b0, some b1 =>
      if b0 == 1 then
        let p := ua.insert (.openUpvalue (curSlot + b1))
        processUpvals curSlot curUpvals code n (ip + 2) p.1 (acc ++ [p.2])
      else
        match curUpvals.get? b1 with
        | some h => processUpvals curSlot curUpvals code n (ip + 2) ua (acc ++ [h])
        | none => .error "Remote upvalue index out of bounds"
    | _, _ => .error "index out of bounds (upvalue descriptor bytes)"

def callArm (H : Host) (s : VMState) (f2 : FrameM) (argc : Nat) : StepResult :=
  if s.stack.length < argc + 1 then
    .crash "attempt to subtract with overflow (func_slot)"
  else
    let fslot := s.stack.length - 1 - argc
    match s.stack.getD fslot .null with
    | .closureHandle i g =>
      match s.closureArena.get ⟨i, g⟩ with
      | none => .crash "called unwrap on a None value (stale closure handle)"
      | some cl =>
        if cl.func.arity ≠ argc then
          .err (.runtimeError (curLine f2)
            (cl.func.name ++ " Expected " ++ toString cl.func.arity
              ++ " arguments but got " ++ toString argc)) s
        else if s.frames.length > 100 then
          .err (.runtimeError (curLine f2) "Stack overflow") s
        else
          .ok { s with frames := s.frames ++ [⟨cl, fslot, 0⟩] }
    | .closurePtr _ name arity cnt ccode cconsts clines =>
      if arity ≠ argc then
        .err (.runtimeError (curLine f2)
          (name ++ " Expected " ++ toString arity
            ++ " arguments but got " ++ toString argc)) s
      else if s.frames.length > 100 then
        .err (.runtimeError (curLine f2) "Stack overflow") s
      else
        .ok { s with frames :=
          s.frames ++ [⟨⟨⟨name, arity, cnt, ccode, cconsts, clines⟩, []⟩, fslot, 0⟩] }
    | .nativeFn nid =>
      let args := (s.stack.drop fslot).take argc
      match H.native nid args with
      | .error e => .err e s
      | .ok result =>
        .ok { s with stack := s.stack.take (s.stack.length - (argc + 1)) ++ [result] }
    | _ => .err (.runtimeError (curLine f2) "Only functions can be called") s

def execOp (H : Host) (s : VMState) (f : FrameM) (code : List Nat) (ip1 : Nat) :
    OpM → StepResult
  | .INVALID _ => .err .invalidChunk (setCur s { f with ip := ip1 })
  | .RETURN => returnArm (setCur s { f with ip := ip1 }) f.slot
  | .POP =>
    let s2 := setCur s { f with ip := ip1 }
    match s2.stack.getLast? with
    | some v => .ok { s2 with stack := s2.stack.dropLast, lastValue := v }
    | none => .ok s2
  | .CONSTANT =>
    let p := readU16 code ip1
    let s2 := setCur s { f with ip := p.2 }
    match f.closure.func.constants.get? p.1 with
    | some c => .ok (pushV s2 c)
    | none => .crash "index out of bounds (constants)"
  | .Closure =>
    let p := readU16 code ip1
    match f.closure.func.constants.get? p.1 with
    | none => .crash "index out of bounds (constants)"
    | some val =>
      match val with
      | .closurePtr _ name arity cnt ccode cconsts clines =>
        match processUpvals f.slot f.closure.upvalues code cnt p.2 s.upvalueArena [] with
        | .error m => .crash m
        | .ok (ip3, ua, ups) =>
          let s2 := setCur s { f with ip := ip3 }
          let q := s2.closureArena.insert ⟨⟨name, arity, cnt, ccode, cconsts, clines⟩, ups⟩
          .ok { s2 with upvalueArena := ua, closureArena := q.1,
                        stack := s2.stack ++ [mkClosureHandleValue q.2] }
      | .str _ _ =>
        .err (.compilationError "Expected closure pointer, found String pointer")
          (setCur s { f with ip := p.2 })
      | .nativeFn _ =>
        .err (.compilationError "Expected closure pointer, found NativeFn pointer")
          (setCur s { f with ip := p.2 })
      | .closureHandle _ _ =>
        .err (.compilationError "Expected closure pointer, found ClosureHandle pointer")
          (setCur s { f with ip := p.2 })
      | _ =>
        .err (.compilationError "Expected closure pointer, found non-pointer value")
          (setCur s { f with ip := p.2 })
  | .Call =>
    let p := readByte code ip1
    callArm H (setCur s { f with ip := p.2 }) { f with ip := p.2 } p.1
  | .SetLocal =>
    let p := readByte code ip1
    let s2 := setCur s { f with ip := p.2 }
    .ok { s2 with stack := setLocalStack (f.slot + p.1) s2.stack }
  | .GetLocal =>
    let p := readByte code ip1
    let s2 := setCur s { f with ip := p.2 }
    .ok { s2 with stack := getLocalStack (f.slot + p.1) s2.stack }
  | .GetUpvalue =>
    let p := readByte code ip1
    let s2 := setCur s { f with ip := p.2 }
    if p.1 < f.closure.upvalues.length then
      let uh := f.closure.upvalues.getD p.1 ⟨0, 0⟩
      match s2.upvalueArena.get uh with
      | none => .crash "called unwrap on a None value (upvalue handle)"
      | some (.closedUpvalue v) => .ok (pushV s2 v)
      | some (.openUpvalue idx) =>
        match s2.stack.get? idx with
        | some v => .ok (pushV s2 v)
        | none => .crash "index out of bounds (stack)"
    else .crash "GetUpvalue: slot out of bounds"
  | .SetUpvalue =>
    let p := readByte code ip1
    let s2 := setCur s { f with ip := p.2 }
    match s2.stack.getLast? with
    | none => .crash "index out of bounds (peek on empty stack)"
    | some v =>
      if p.1 < f.closure.upvalues.length then
        let uh := f.closure.upvalues.getD p.1 ⟨0, 0⟩
        match s2.upvalueArena.get uh with
        | none => .crash "called unwrap on a None value (upvalue handle)"
        | some (.openUpvalue idx) =>
          if idx < s2.stack.length then
            .ok { s2 with stack := s2.stack.set idx v }
          else .crash "index out of bounds (stack)"
        | some (.closedUpvalue _) =>
          .ok { s2 with upvalueArena := s2.upvalueArena.setObj uh (.closedUpvalue v) }
      else .crash "index out of bounds (upvalues)"
  | .SetGlobal =>
    let s2 := setCur s { f with ip := ip1 }
    match s2.stack.getLast? with
    | none => .crash "called unwrap on a None value (pop name)"
    | some name =>
      let st1 := s2.stack.dropLast
      match st1.getLast? with
      | none => .crash "called unwrap on a None value (pop value)"
      | some val =>
        let st2 := st1.dropLast
        match name with
        | .str _ ns =>
          .ok { s2 with stack := st2 ++ [val],
                        globals := insertGlobal s2.globals ns val }
        | _ => .crash "unreachable: Only strings can become globals"
  | .GetGlobal =>
    let s2 := setCur s { f with ip := ip1 }
    match s2.stack.getLast? with
    | none => .crash "called unwrap on a None value (pop name)"
    | some name =>
      let st1 := s2.stack.dropLast
      match name with
      | .str _ ns =>
        match lookupGlobal s2.globals ns with
        | some v => .ok { s2 with stack := st1 ++ [v] }
        | none =>
          .err (.runtimeError (curLine { f with ip := ip1 })
            ("Undefined global " ++ ns)) { s2 with stack := st1 }
      | _ => .crash "unreachable: Expected an Identifier"
  | .NEGATE =>
    let s2 := setCur s { f with ip := ip1 }
    let q := popOrNull s2.stack
    match q.1 with
    | .num bits => .ok { s2 with stack := q.2 ++ [.num (f64Neg bits)] }
    | _ =>
      .err (.runtimeError (curLine { f with ip := ip1 }) "Can only negate numbers")
        { s2 with stack := q.2 }
  | .ADD =>
    let s2 := setCur s { f with ip := ip1 }
    let qb := popOrNull s2.stack
    let qa := popOrNull qb.2
    match qa.1, qb.1 with
    | .num a, .num b => .ok { s2 with stack := qa.2 ++ [.num (H.fadd a b)] }
    | av, bv =>
      if isStrV av && isStrV bv then
        .ok { s2 with
          stack := qa.2 ++ [.str s2.nextAllocId (strContent av ++ strContent bv)],
          nextAllocId := s2.nextAllocId + 1 }
      else if isStrV av || isStrV bv then
        let sa := if isStrV av then strContent av else displayV H av
        let sb := if isStrV bv then strContent bv else displayV H bv
        .ok { s2 with stack := qa.2 ++ [.str s2.nextAllocId (sa ++ sb)],
                      nextAllocId := s2.nextAllocId + 1 }
      else
        .err (.runtimeError (curLine { f with ip := ip1 })
          ("Cannot add " ++ displayV H av ++ " and " ++ displayV H bv))
          { s2 with stack := qa.2 }
  | .SUB =>
    let s2 := setCur s { f with ip := ip1 }
    let qb := popOrNull s2.stack
    let qa := popOrNull qb.2
    match qa.1, qb.1 with
    | .num a, .num b => .ok { s2 with stack := qa.2 ++ [.num (H.fsub a b)] }
    | av, bv =>
      .err (.runtimeError (curLine { f with ip := ip1 })
        ("Cannot subtract " ++ displayV H bv ++ " from " ++ displayV H av))
        { s2 with stack := qa.2 }
  | .MUL =>
    let s2 := setCur s { f with ip := ip1 }
    let qb := popOrNull s2.stack
    let qa := popOrNull qb.2
    match qa.1, qb.1 with
    | .num a, .num b => .ok { s2 with stack := qa.2 ++ [.num (H.fmul a b)] }
    | av, bv =>
      .err (.runtimeError (curLine { f with ip := ip1 })
        ("Cannot multiply " ++ displayV H av ++ " and " ++ displayV H bv))
        { s2 with stack := qa.2 }
  | .DIV =>
    let s2 := setCur s { f with ip := ip1 }
    let qb := popOrNull s2.stack
    let qa := popOrNull qb.2
    match qa.1, qb.1 with
    | .num a, .num b => .ok { s2 with stack := qa.2 ++ [.num (H.fdiv a b)] }
    | av, bv =>
      .err (.runtimeError (curLine { f with ip := ip1 })
        ("Cannot divide " ++ displayV H av ++ " by " ++ displayV H bv))
        { s2 with stack := qa.2 }
  | .TRUE => .ok (pushV (setCur s { f with ip := ip1 }) (.boolean true))
  | .FALSE => .ok (pushV (setCur s { f with ip := ip1 }) (.boolean false))
  | .NOT =>
    let s2 := setCur s { f with ip := ip1 }
    let q := popOrNull s2.stack
    .ok { s2 with stack := q.2 ++ [.boolean (!isTruthy q.1)] }
  | .GREATER =>
    let s2 := setCur s { f with ip := ip1 }
    let qb := popOrNull s2.stack
    let qa := popOrNull qb.2
    match qa.1, qb.1 with
    | .num a, .num b => .ok { s2 with stack := qa.2 ++ [.boolean (f64Gt a b)] }
    | _, _ => .ok { s2 with stack := qa.2 ++ [.boolean false] }
  | .LESS =>
    let s2 := setCur s { f with ip := ip1 }
    let qb := popOrNull s2.stack
    let qa := popOrNull qb.2
    match qa.1, qb.1 with
    | .num a, .num b => .ok { s2 with stack := qa.2 ++ [.boolean (f64Lt a b)] }
    | _, _ => .ok { s2 with stack := qa.2 ++ [.boolean false] }
  | .EQUAL =>
    let s2 := setCur s { f with ip := ip1 }
    let qb := popOrNull s2.stack
    let qa := popOrNull qb.2
    .ok { s2 with stack := qa.2 ++ [fastEqualV qa.1 qb.1] }
  | .PRINT => .ok (setCur s { f with ip := ip1 })
  | .Jump =>
    let p := readU16 code ip1
    .ok (setCur s { f with ip := p.2 + p.1 })
  | .JumpIfFalse =>
    let p := readU16 code ip1
    let q := popOrNull s.stack
    if isTruthy q.1 then
      .ok { setCur s { f with ip := p.2 } with stack := q.2 }
    else
      .ok { setCur s { f with ip := p.2 + p.1 } with stack := q.2 }
  | .Loop =>
    let p := readU16 code ip1
    if p.2 < p.1 then .crash "attempt to subtract with overflow (jump_back)"
    else .ok (setCur s { f with ip := p.2 - p.1 })

def step (H : Host) (s : VMState) : StepResult :=
  match s.frames.getLast? with
  | none => .crash "cur_frame called with no frames"
  | some f =>
    let code := f.closure.func.code
    let p := readByte code f.ip
    execOp H s f code p.2 (opAt p.1)

def isAtEnd (s : VMState) : Bool :=
  match s.frames.getLast? with
  | none => true
  | some f => decide (f.closure.func.code.length ≤ f.ip)

inductive RunOutcome where
  | success (v : Value) (s : VMState)
  | failure (e : VMErr) (s : VMState)
  | crashed (msg : String)

def runLoop (H : Host) : Nat → VMState → Option RunOutcome
  | 0, _ => none
  | fuel + 1, s =>
    if isAtEnd s then some (.success (s.stack.getLast?.getD .null) s)
    else
      match step H s with
      | .ok s' => runLoop H fuel s'
      | .err e s' => some (.failure e s')
      | .done v s' => some (.success v s')
      | .crash m => some (.crashed m)

def runVM (H : Host) (fuel : Nat) (s : VMState) : Option RunOutcome :=
  if s.frames.isEmpty then some (.failure .invalidChunk s) else runLoop H fuel s

def resetStack (s : VMState) : VMState := { s with stack := [], frames := [] }

def handleVMError (e : VMErr) (s : VMState) : VMState :=
  match e with
  | .runtimeError _ _ => resetStack s
  | _ => s


def H0 : Host :=
  ⟨fun _ _ => 0, fun _ _ => 0, fun _ _ => 0, fun _ _ => 0,
   fun _ => "0", fun _ _ => .ok .null⟩

def mkFrame (code : List Nat) (slot : Nat) : FrameM :=
  ⟨⟨⟨"test", 0, 0, code, [], []⟩, []⟩, slot, 0⟩

def mkState (code : List Nat) (slot : Nat) (stack : List Value) : VMState :=
  ⟨stack, [mkFrame code slot], [], .null, ArenaM.empty, ArenaM.empty, 0⟩

def resStack : StepResult → Option (List Value)
  | .ok s => some s.stack
  | _ => none

def steps (H : Host) : Nat → StepResult → StepResult
  | 0, r => r
  | n + 1, .ok s => steps H n (step H s)
  | _ + 1, r => r

def isNumV : Value → Bool
  | .num _ => true
  | _ => false

/- C1 counterexample -/
/-- C1 (counterexample): executing SET_LOCAL slot 0 (frame slot 0) on
the stack `[null, true]` leaves a stack of height 1, not 2 — the
assigned value is popped before being written into the slot, so the
stack height is not preserved. -/
theorem setLocal_stack_height_counterexample :
    (mkState [17, 0] 0 [.null, .boolean true]).stack.length = 2
    ∧ resStack (step H0 (mkState [17, 0] 0 [.null, .boolean true]))
        = some [.boolean true]
    ∧ ((2 : Nat) = 1 → False) := by
  refine ⟨rfl, rfl, by omega⟩

/- C1 amended -/
/-- C1 (amended): SET_LOCAL pops the assigned value `v` (null when the
stack is empty), grows the popped stack with nulls to
`max(slot+1, 2*len)` when it no longer covers the slot, and writes `v`
into the frame-relative slot; the assigned value thus remains on the
stack at that slot, but the overall height is not preserved in
general. -/
theorem setLocal_writes_slot (slot : Nat) (stack : List Value) :
    slot < (setLocalStack slot stack).length
    ∧ (setLocalStack slot stack).get? slot = some (stack.getLast?.getD .null)
    ∧ (setLocalStack slot stack).length
        = (if stack.dropLast.length ≤ slot
           then max (slot + 1) (stack.dropLast.length * 2)
           else stack.dropLast.length) := by
  unfold setLocalStack
  by_cases h : stack.dropLast.length ≤ slot
  · have hlen : (stack.dropLast
        ++ List.replicate (max (slot + 1) (stack.dropLast.length * 2)
            - stack.dropLast.length) Value.null).length
        = max (slot + 1) (stack.dropLast.length * 2) := by
      simp [List.length_append, List.length_replicate]
      omega
    have hslot : slot < max (slot + 1) (stack.dropLast.length * 2) := by omega
    refine ⟨?_, ?_, ?_⟩
    · simp only [h, if_pos, List.length_set]
      rw [hlen]
      exact hslot
    · simp only [h, if_pos]
      rw [List.get?_set_eq_of_lt _ (by rw [hlen]; exact hslot)]
    · simp only [h, if_pos, List.length_set]
      rw [hlen]
  · push_neg at h
    refine ⟨?_, ?_, ?_⟩
    · simp only [if_neg (by omega : ¬ stack.dropLast.length ≤ slot), List.length_set]
      exact h
    · simp only [if_neg (by omega : ¬ stack.dropLast.length ≤ slot)]
      rw [List.get?_set_eq_of_lt _ h]
    · simp only [if_neg (by omega : ¬ stack.dropLast.length ≤ slot), List.length_set]

/-- Opcode bytes emitted by `Compiler::binary` for each infix operator
token (via `Op::bytecode`): `>=` compiles to LESS then NOT, `<=` to
GREATER then NOT, `!=` to EQUAL then NOT.  Tokens without an arm are
unreachable in `binary()` (modelled as emitting nothing). -/
def binaryOpBytes (t : TokenTypeM) : List Nat :=
  match t with
  | .Plus => [3]
  | .Minus => [4]
  | .Slash => [6]
  | .Star => [5]
  | .Greater => [10]
  | .Less => [11]
  | .EqEqual => [12]
  | .GEqual => [11, 9]
  | .LEqual => [10, 9]
  | .NEqual => [12, 9]
  | _ => []


def outValue : Option RunOutcome → Option Value
  | some (.success v _) => some v
  | _ => none

/- C3 counterexample: a <= b with non-numeric operands evaluates to true -/
/-- C3 (counterexample): `a <= b` compiles to GREATER followed by NOT,
so evaluating it on the non-numeric operands `null, null` pushes the
boolean **true**, not false as the claim states. -/
theorem le_nonnumeric_counterexample :
    binaryOpBytes .LEqual = [10, 9]
    ∧ outValue (runVM H0 3 (mkState (binaryOpBytes .LEqual) 0 [.null, .null]))
        = some (.boolean true)
    ∧ (Value.boolean true = Value.boolean false → False) := by
  refine ⟨rfl, rfl, by simp⟩

theorem popOrNull_concat (l : List Value) (v : Value) : popOrNull (l ++ [v]) = (v, l) := by
  simp [popOrNull, List.getLast?_concat, List.dropLast_concat]

theorem step_greater_nonnum (H : Host) (s : VMState) (f : FrameM)
    (hf : s.frames.getLast? = some f)
    (hop : opAt (readByte f.closure.func.code f.ip).1 = .GREATER)
    (hnn : (isNumV (popOrNull (popOrNull s.stack).2).1
            && isNumV (popOrNull s.stack).1) = false) :
    step H s = .ok { setCur s { f with ip := (readByte f.closure.func.code f.ip).2 }
      with stack := (popOrNull (popOrNull s.stack).2).2 ++ [.boolean false] } := by
  unfold step
  rw [hf]
  simp only
  rw [hop]
  simp only [execOp, setCur_stack]
  cases hqa : (popOrNull (popOrNull s.stack).2).1 <;>
    cases hqb : (popOrNull s.stack).1 <;>
    simp_all [isNumV]

theorem step_less_nonnum (H : Host) (s : VMState) (f : FrameM)
    (hf : s.frames.getLast? = some f)
    (hop : opAt (readByte f.closure.func.code f.ip).1 = .LESS)
    (hnn : (isNumV (popOrNull (popOrNull s.stack).2).1
            && isNumV (popOrNull s.stack).1) = false) :
    step H s = .ok { setCur s { f with ip := (readByte f.closure.func.code f.ip).2 }
      with stack := (popOrNull (popOrNull s.stack).2).2 ++ [.boolean false] } := by
  unfold step
  rw [hf]
  simp only
  rw [hop]
  simp only [execOp, setCur_stack]
  cases hqa : (popOrNull (popOrNull s.stack).2).1 <;>
    cases hqb : (popOrNull s.stack).1 <;>
    simp_all [isNumV]

theorem step_not (H : Host) (s : VMState) (f : FrameM)
    (hf : s.frames.getLast? = some f)
    (hop : opAt (readByte f.closure.func.code f.ip).1 = .NOT) :
    step H s = .ok { setCur s { f with ip := (readByte f.closure.func.code f.ip).2 }
      with stack := (popOrNull s.stack).2
        ++ [.boolean (!isTruthy (popOrNull s.stack).1)] } := by
  unfold step
  rw [hf]
  simp only
  rw [hop]
  rfl

/- C3 amended -/
/-- C3 (amended): GREATER and LESS (the opcodes for `>` and `<`) push
the boolean false, without a runtime error, whenever at least one
popped operand is not a number; `<=` (and symmetrically `>=`) is
compiled as the dual comparison followed by NOT, so on non-numeric
operands it pushes true, also without a runtime error. -/
theorem comparison_nonnumeric (H : Host) :
    (∀ (s : VMState) (f : FrameM), s.frames.getLast? = some f →
      opAt (readByte f.closure.func.code f.ip).1 = .GREATER →
      (isNumV (popOrNull (popOrNull s.stack).2).1
        && isNumV (popOrNull s.stack).1) = false →
      step H s = .ok { setCur s { f with ip := (readByte f.closure.func.code f.ip).2 }
        with stack := (popOrNull (popOrNull s.stack).2).2 ++ [.boolean false] })
    ∧ (∀ (s : VMState) (f : FrameM), s.frames.getLast? = some f →
      opAt (readByte f.closure.func.code f.ip).1 = .LESS →
      (isNumV (popOrNull (popOrNull s.stack).2).1
        && isNumV (popOrNull s.stack).1) = false →
      step H s = .ok { setCur s { f with ip := (readByte f.closure.func.code f.ip).2 }
        with stack := (popOrNull (popOrNull s.stack).2).2 ++ [.boolean false] })
    ∧ (∀ (s : VMState) (f : FrameM) (rest : List Value) (a b : Value),
      s.frames.getLast? = some f →
      f.closure.func.code = binaryOpBytes .LEqual → f.ip = 0 →
      s.stack = rest ++ [a, b] →
      (isNumV a && isNumV b) = false →
      resStack (steps H 2 (.ok s)) = some (rest ++ [.boolean true])) := by
  refine ⟨fun s f hf hop hnn => step_greater_nonnum H s f hf hop hnn,
          fun s f hf hop hnn => step_less_nonnum H s f hf hop hnn, ?_⟩
  intro s f rest a b hf hcode hip hstack hnn
  have hsplit : s.stack = (rest ++ [a]) ++ [b] := by simp [hstack]
  have hqb : popOrNull s.stack = (b, rest ++ [a]) := by
    rw [hsplit]; exact popOrNull_concat _ _
  have hqa : popOrNull (popOrNull s.stack).2 = (a, rest) := by
    rw [hqb]; exact popOrNull_concat _ _
  have hop1 : opAt (readByte f.closure.func.code f.ip).1 = .GREATER := by
    rw [hcode, hip]; rfl
  have h1 := step_greater_nonnum H s f hf hop1 (by rw [hqa, hqb]; simpa using hnn)
  show resStack (steps H 1 (step H s)) = _
  rw [h1]
  set f1 : FrameM := { f with ip := (readByte f.closure.func.code f.ip).2 } with hf1
  set s1 : VMState := { setCur s f1 with stack := (popOrNull (popOrNull s.stack).2).2
    ++ [.boolean false] } with hs1
  have hf1last : s1.frames.getLast? = some f1 := by
    simp [hs1, setCur]
  have hip1 : f1.ip = 1 := by rw [hf1, hip, hcode]; rfl
  have hop2 : opAt (readByte f1.closure.func.code f1.ip).1 = .NOT := by
    have : f1.closure.func.code = binaryOpBytes .LEqual := hcode
    rw [this, hip1]; rfl
  have h2 := step_not H s1 f1 hf1last hop2
  show resStack (steps H 0 (step H s1)) = _
  rw [h2]
  have hs1stack : s1.stack = rest ++ [.boolean false] := by
    simp [hs1, hqa]
  have hq1 : popOrNull s1.stack = (.boolean false, rest) := by
    rw [hs1stack]; exact popOrNull_concat _ _
  simp [steps, resStack, hq1, isTruthy]


theorem comparison_nonnumeric_witness :
    resStack (steps H0 2 (.ok (mkState (binaryOpBytes .LEqual) 0 [.null, .null])))
      = some ([] ++ [.boolean true]) :=
  (comparison_nonnumeric H0).2.2 (mkState (binaryOpBytes .LEqual) 0 [.null, .null])
    (mkFrame (binaryOpBytes .LEqual) 0) [] .null .null rfl rfl rfl rfl rfl

/- C9 -/
/-- C9: when the run loop stops with a runtime error, the error
handler (the `runtime_error` → `reset_stack` path of
`VM::interpret`) leaves the value stack and the call stack empty and
the globals exactly as they were at the moment of the error. -/
theorem runtime_error_clears_stacks (H : Host) (fuel : Nat) (s0 : VMState)
    (line : Nat) (msg : String) (s' : VMState)
    (hrun : runVM H fuel s0 = some (.failure (.runtimeError line msg) s')) :
    (handleVMError (.runtimeError line msg) s').stack = []
    ∧ (handleVMError (.runtimeError line msg) s').frames = []
    ∧ (handleVMError (.runtimeError line msg) s').globals = s'.globals := by
  refine ⟨rfl, rfl, rfl⟩

def negErrState : VMState :=
  { setCur (mkState [2] 0 []) { mkFrame [2] 0 with ip := 1 } with stack := [] }

theorem runtime_error_clears_stacks_witness :
    runVM H0 5 (mkState [2] 0 [])
      = some (.failure (.runtimeError 0 "Can only negate numbers") negErrState)
    ∧ (handleVMError (.runtimeError 0 "Can only negate numbers") negErrState).stack = []
    ∧ (handleVMError (.runtimeError 0 "Can only negate numbers") negErrState).globals
        = negErrState.globals := by
  have h := runtime_error_clears_stacks H0 5 (mkState [2] 0 []) 0
    "Can only negate numbers" negErrState rfl
  exact ⟨rfl, h.1, h.2.2⟩


def resState : StepResult → Option VMState
  | .ok s => some s
  | .err _ s => some s
  | .done _ s => some s
  | .crash _ => none

/- C4 -/
/-- C4: RETURN pops the top value `v` (null on an empty stack), closes
every open upvalue whose captured slot is ≥ the frame's return slot
(leaving other entries untouched), truncates the stack to the return
slot, and pops the frame; if no frames remain the result is `v`
(`.done`), otherwise `v` is pushed back.  The hypothesis is the spec's
own VM invariant that open upvalues point below the top of stack
(without it, the source's defensive bounds check skips the upvalue). -/
theorem return_protocol :
    (∀ (H : Host) (s : VMState) (f : FrameM), s.frames.getLast? = some f →
      opAt (readByte f.closure.func.code f.ip).1 = .RETURN →
      step H s
        = returnArm (setCur s { f with ip := (readByte f.closure.func.code f.ip).2 }) f.slot)
    ∧ (∀ (s : VMState) (slot : Nat),
      (∀ j idx, s.upvalueArena.objects.get? j = some (some (.openUpvalue idx)) →
        slot ≤ idx → idx < s.stack.dropLast.length) →
      ∃ s', resState (returnArm s slot) = some s'
      ∧ s'.frames = s.frames.dropLast
      ∧ (s.frames.dropLast = [] →
          returnArm s slot = .done (s.stack.getLast?.getD .null) s'
          ∧ s'.stack = s.stack.dropLast.take slot)
      ∧ (s.frames.dropLast ≠ [] →
          returnArm s slot = .ok s'
          ∧ s'.stack = s.stack.dropLast.take slot ++ [s.stack.getLast?.getD .null])
      ∧ (∀ j idx, s.upvalueArena.objects.get? j = some (some (.openUpvalue idx)) →
          slot ≤ idx →
          s'.upvalueArena.objects.get? j
            = some (some (.closedUpvalue (s.stack.dropLast.getD idx .null))))
      ∧ (∀ j idx, s.upvalueArena.objects.get? j = some (some (.openUpvalue idx)) →
          idx < slot →
          s'.upvalueArena.objects.get? j = some (some (.openUpvalue idx)))
      ∧ (∀ j v, s.upvalueArena.objects.get? j = some (some (.closedUpvalue v)) →
          s'.upvalueArena.objects.get? j = some (some (.closedUpvalue v)))
      ∧ s'.globals = s.globals) := by
  constructor
  · intro H s f hf hop
    unfold step
    rw [hf]
    simp only
    rw [hop]
    rfl
  · intro s slot hrange
    have hclose1 : ∀ j idx, s.upvalueArena.objects.get? j = some (some (.openUpvalue idx)) →
        slot ≤ idx →
        (closeUpvalues s.upvalueArena s.stack.dropLast slot).objects.get? j
          = some (some (.closedUpvalue (s.stack.dropLast.getD idx .null))) := by
      intro j idx hj hle
      have hin := hrange j idx hj hle
      rw [List.length_dropLast] at hin
      unfold closeUpvalues
      simp only [List.get?_map, hj, Option.map_some]
      simp only [List.length_dropLast]
      simp [hle]
      omega
    have hclose2 : ∀ j idx, s.upvalueArena.objects.get? j = some (some (.openUpvalue idx)) →
        idx < slot →
        (closeUpvalues s.upvalueArena s.stack.dropLast slot).objects.get? j
          = some (some (.openUpvalue idx)) := by
      intro j idx hj hlt
      unfold closeUpvalues
      simp only [List.get?_map, hj, Option.map_some]
      simp
      omega
    have hclose3 : ∀ j v, s.upvalueArena.objects.get? j = some (some (.closedUpvalue v)) →
        (closeUpvalues s.upvalueArena s.stack.dropLast slot).objects.get? j
          = some (some (.closedUpvalue v)) := by
      intro j v hj
      unfold closeUpvalues
      simp only [List.get?_map, hj, Option.map_some]
      rfl
    by_cases he : s.frames.dropLast.isEmpty
    · refine ⟨{ s with stack := s.stack.dropLast.take slot,
                       frames := s.frames.dropLast,
                       upvalueArena := closeUpvalues s.upvalueArena s.stack.dropLast slot },
        ?_, rfl, fun _ => ⟨?_, rfl⟩,
        fun hne => absurd (List.isEmpty_iff.mp he) hne,
        hclose1, hclose2, hclose3, rfl⟩
      · unfold returnArm
        rw [if_pos he]
        rfl
      · unfold returnArm
        rw [if_pos he]
    · refine ⟨{ s with stack := s.stack.dropLast.take slot
                         ++ [s.stack.getLast?.getD .null],
                       frames := s.frames.dropLast,
                       upvalueArena := closeUpvalues s.upvalueArena s.stack.dropLast slot },
        ?_, rfl, fun hemp => absurd hemp (by simpa [List.isEmpty_iff] using he),
        fun _ => ⟨?_, rfl⟩,
        hclose1, hclose2, hclose3, rfl⟩
      · unfold returnArm
        rw [if_neg (by simpa using he)]
        rfl
      · unfold returnArm
        rw [if_neg (by simpa using he)]


def c4State : VMState :=
  ⟨[.num 5, .boolean true], [mkFrame [0] 0], [], .null, ArenaM.empty,
    ⟨[some (.openUpvalue 0)], [1], [], 2⟩, 0⟩

def c4ResState : VMState :=
  ⟨[], [], [], .null, ArenaM.empty,
    ⟨[some (.closedUpvalue (.num 5))], [1], [], 2⟩, 0⟩

theorem return_protocol_witness :
    resState (returnArm c4State 0) = some c4ResState
    ∧ c4ResState.upvalueArena.objects.get? 0
        = some (some (.closedUpvalue (.num 5)))
    ∧ c4ResState.stack = [] := by
  obtain ⟨s', h1, h2, h3, h4, h5, h6, h7, h8⟩ :=
    return_protocol.2 c4State 0 (by
      intro j idx hj hle
      cases j with
      | zero =>
        simp [c4State] at hj
        subst hj
        decide
      | succ n =>
        cases n <;> simp [c4State] at hj)
  have hcomp : resState (returnArm c4State 0) = some c4ResState := rfl
  have hs : s' = c4ResState := by
    rw [h1] at hcomp
    exact Option.some.inj hcomp
  exact ⟨hcomp, by rw [← hs]; exact h5 0 0 rfl (Nat.le_refl 0), by rw [← hs, h3 rfl |>.2]; rfl⟩


/- C2 counterexample: at depth 100 a call still succeeds, reaching 101 frames -/
def depthClosure : FnClosureM := ⟨⟨"g", 0, 0, [23, 0], [], []⟩, []⟩

def depth100State : VMState :=
  ⟨[.closureHandle 0 1], List.replicate 100 ⟨depthClosure, 0, 0⟩, [], .null,
    ⟨[some depthClosure], [1], [], 2⟩, ArenaM.empty, 0⟩

def resFramesLen : StepResult → Option Nat
  | .ok s => some s.frames.length
  | _ => none

/-- C2 (counterexample): with exactly 100 frames, a CALL of an
arity-matching closure still succeeds and pushes frame number 101 —
the guard `frames.len() > 100` runs before the push, so the claimed
bound of 100 is exceeded. -/
theorem call_depth_101_counterexample :
    depth100State.frames.length = 100
    ∧ resFramesLen (step H0 depth100State) = some 101
    ∧ ((101 : Nat) ≤ 100 → False) := by
  refine ⟨by simp [depth100State], ?_, by omega⟩
  rfl

/- helpers for C2 -/
theorem call_overflow (H : Host) (s : VMState) (f2 : FrameM) (argc : Nat)
    (i g : Nat) (cl : FnClosureM)
    (hstk : argc + 1 ≤ s.stack.length)
    (hv : s.stack.getD (s.stack.length - 1 - argc) .null = .closureHandle i g)
    (hcl : s.closureArena.get ⟨i, g⟩ = some cl)
    (harity : cl.func.arity = argc)
    (hdepth : 100 < s.frames.length) :
    callArm H s f2 argc = .err (.runtimeError (curLine f2) "Stack overflow") s := by
  unfold callArm
  rw [if_neg (by omega)]
  simp only [hv, hcl]
  rw [if_neg (by omega), if_pos (by omega)]


theorem step_frames_bound (H : Host) (s s' : VMState)
    (hle : s.frames.length ≤ 101) (hstep : step H s = .ok s') :
    s'.frames.length ≤ 101 := by
  unfold step at hstep
  cases hf : s.frames.getLast? with
  | none => rw [hf] at hstep; simp at hstep
  | some f =>
    rw [hf] at hstep
    have hne : s.frames ≠ [] := by
      intro h
      rw [h] at hf
      simp at hf
    have hlen1 : 1 ≤ s.frames.length := List.length_pos.mpr hne
    simp only at hstep
    cases ho : opAt (readByte f.closure.func.code f.ip).1 <;> rw [ho] at hstep <;>
      simp only [execOp, returnArm, callArm, pushV] at hstep <;>
      repeat' split at hstep
    all_goals try (simp at hstep; done)
    all_goals (injection hstep with h; subst h)
    all_goals simp_all [setCur, List.length_dropLast]
    all_goals omega


/- C2 amended -/
/-- C2 (amended): after every instruction the number of call frames is
at most 101 (only CALL pushes a frame, guarded by
`frames.len() > 100`), and a CALL of an arity-matching closure when
more than 100 frames exist raises the runtime error "Stack overflow"
without pushing a frame (the state, frames included, is returned
unchanged). -/
theorem frame_depth_bound :
    (∀ (H : Host) (s s' : VMState), s.frames.length ≤ 101 → step H s = .ok s' →
      s'.frames.length ≤ 101)
    ∧ (∀ (H : Host) (s : VMState) (f2 : FrameM) (argc i g : Nat) (cl : FnClosureM),
      argc + 1 ≤ s.stack.length →
      s.stack.getD (s.stack.length - 1 - argc) .null = .closureHandle i g →
      s.closureArena.get ⟨i, g⟩ = some cl →
      cl.func.arity = argc →
      100 < s.frames.length →
      callArm H s f2 argc = .err (.runtimeError (curLine f2) "Stack overflow") s) :=
  ⟨step_frames_bound,
   fun H s f2 argc i g cl hstk hv hcl harity hdepth =>
     call_overflow H s f2 argc i g cl hstk hv hcl harity hdepth⟩

def depth101State : VMState :=
  { depth100State with frames :=
      ((List.replicate 100 (⟨depthClosure, 0, 0⟩ : FrameM)).dropLast
        ++ [⟨depthClosure, 0, 2⟩]) ++ [⟨depthClosure, 0, 0⟩] }

theorem frame_depth_bound_witness :
    depth100State.frames.length ≤ 101
    ∧ step H0 depth100State = .ok depth101State
    ∧ depth101State.frames.length ≤ 101 :=
  ⟨by simp [depth100State], rfl,
   frame_depth_bound.1 H0 depth100State depth101State (by simp [depth100State]) rfl⟩


def isCrash : StepResult → Bool
  | .crash _ => true
  | _ => false

/- C10 -/
/-- C10: for the underflow-tolerant opcodes (RETURN, POP, NEGATE, NOT,
ADD, SUB, MUL, DIV, GREATER, LESS, EQUAL, JUMP_IF_FALSE) the dispatch
step never aborts with a stack-underflow failure (`isCrash` is false
for every state): each missing operand is read as null
(`popOrNull [] = (null, [])`), and POP on an empty stack is a no-op. -/
theorem underflow_safe :
    (∀ (H : Host) (s : VMState) (f : FrameM), s.frames.getLast? = some f →
      opAt (readByte f.closure.func.code f.ip).1 ∈
        ([.RETURN, .POP, .NEGATE, .NOT, .ADD, .SUB, .MUL, .DIV,
          .GREATER, .LESS, .EQUAL, .JumpIfFalse] : List OpM) →
      isCrash (step H s) = false)
    ∧ popOrNull [] = (Value.null, [])
    ∧ (∀ (H : Host) (s : VMState) (f : FrameM), s.frames.getLast? = some f →
      opAt (readByte f.closure.func.code f.ip).1 = .POP → s.stack = [] →
      step H s = .ok (setCur s { f with ip := (readByte f.closure.func.code f.ip).2 })) := by
  refine ⟨?_, rfl, ?_⟩
  · intro H s f hf hmem
    unfold step
    rw [hf]
    simp only
    simp only [List.mem_cons, List.not_mem_nil, or_false] at hmem
    rcases hmem with ho | ho | ho | ho | ho | ho | ho | ho | ho | ho | ho | ho
    all_goals rw [ho]
    all_goals simp only [execOp, returnArm, pushV]
    all_goals (repeat' split)
    all_goals rfl
  · intro H s f hf hop hstack
    unfold step
    rw [hf]
    simp only
    rw [hop]
    simp only [execOp, setCur_stack]
    rw [hstack]
    rfl

theorem underflow_safe_witness :
    isCrash (step H0 (mkState [3] 0 [])) = false
    ∧ step H0 (mkState [14] 0 [])
        = .ok (setCur (mkState [14] 0 []) { mkFrame [14] 0 with ip := 1 }) :=
  ⟨underflow_safe.1 H0 (mkState [3] 0 []) (mkFrame [3] 0) rfl (by decide),
   underflow_safe.2.2 H0 (mkState [14] 0 []) (mkFrame [14] 0) rfl (by decide) rfl⟩


end Weave
